import Mathlib

/-! # DlgSystem: lowering of the dialogue Select node

A shallow embedding of `FKCHandler_Select::Compile`
(`Source/DlgSystemEditor/Private/BlueprintNodes/DialogueK2Node_Select.cpp`)
together with a small interpreter for the emitted statement list.

Pointers of the C++ code are indices: a statement pointer is the position of
the statement in the statement list of the function context, a terminal
pointer is a `TermRef` into one of the two terminal pools of the context.
-/

namespace DlgSystem

/-! ## Data model -/

/-- Graph pin (`UEdGraphPin`): identity and `PinName`. -/
structure UEdGraphPin where
  PinId : Nat
  PinName : String
deriving DecidableEq, Repr

/-- Pointer to a terminal (`FBPTerminal*`): the pool it lives in and its
position there. `loc` points into `Locals`, `lit` into `Literals`. -/
inductive TermRef where
  | loc (i : Nat)
  | lit (i : Nat)
deriving DecidableEq, Repr

/-- Pin category `UEdGraphSchema_K2::PC_Name`. -/
def PC_Name : String := "name"

/-- Pin category `UEdGraphSchema_K2::PC_Boolean`. -/
def PC_Boolean : String := "bool"

/-- Terminal (`FBPTerminal`), with the fields the handler writes. -/
structure FBPTerminal where
  Name : String := ""
  PinCategory : String := ""
  bIsLiteral : Bool := false
deriving DecidableEq, Repr

/-- Argument of `CreateLocalTerminal`. -/
inductive ETerminalSpecification where
  | TS_Unspecified
  | TS_Literal
deriving DecidableEq, Repr

/-- Statement kinds (`EKismetCompiledStatementType`) used by the handler. -/
inductive EKismetCompiledStatementType where
  | KCST_Nop
  | KCST_CallFunction
  | KCST_Assignment
  | KCST_GotoIfNot
  | KCST_UnconditionalGoto
deriving DecidableEq, Repr

/-- Functions a statement can call. `GetConditionalFunction` always looks up
`UKismetMathLibrary::EqualEqual_NameName`. -/
inductive UFunction where
  | EqualEqual_NameName
deriving DecidableEq, Repr

/-- Compiled statement (`FBlueprintCompiledStatement`). `TargetLabel` is a
statement pointer, `none` is the null pointer. A fresh statement is a `Nop`
with every field cleared. -/
structure FBlueprintCompiledStatement where
  Type_ : EKismetCompiledStatementType := .KCST_Nop
  FunctionToCall : Option UFunction := none
  FunctionContext : Option TermRef := none
  bIsParentContext : Bool := false
  LHS : Option TermRef := none
  RHS : List TermRef := []
  bIsJumpTarget : Bool := false
  TargetLabel : Option Nat := none
deriving DecidableEq, Repr

/-- Function context (`FKismetFunctionContext`): the pin to terminal map (by
its `Find`), the two terminal pools, the statements in emission order and the
errors sent to the message log. -/
structure FKismetFunctionContext where
  NetMap : UEdGraphPin → Option TermRef
  Literals : List FBPTerminal
  Locals : List FBPTerminal
  AllGeneratedStatements : List FBlueprintCompiledStatement
  MessageLog : List (String × UEdGraphPin)

/-- Graph connectivity as seen through `FEdGraphUtilities::GetNetFromPin`. -/
structure FEdGraphUtilities where
  GetNetFromPin : UEdGraphPin → UEdGraphPin

/-- Engine name (`FName`) of an editor build: the entry of the name table that
holds its text with the case folded, the entry that holds its text in the case
it was written in, and its number. -/
structure FName where
  ComparisonIndex : Nat
  DisplayIndex : Nat
  Number : Nat
deriving Repr

/-- The operator `==` of `FName` (and through it `!=`): two names are equal
when their comparison index and number agree. The display index, and with it
the case of the text, plays no part. -/
instance : BEq FName :=
  ⟨fun a b => a.ComparisonIndex == b.ComparisonIndex && a.Number == b.Number⟩

/-- The name `NAME_None`: the first entry of the name table. -/
def NAME_None : FName := { ComparisonIndex := 0, DisplayIndex := 0, Number := 0 }

/-- Type of the dialogue variable a node selects on (`EDlgVariableType`).
`DlgVariableTypeOther` stands for every enumerator other than the two the
node handles. -/
inductive EDlgVariableType where
  | DlgVariableTypeFloat
  | DlgVariableTypeInt
  | DlgVariableTypeOther
deriving DecidableEq, Repr

/-- Select node (`UDialogueK2Node_Select`): its identity and its pins, as
returned by `GetVariableNamePin`, `GetDefaultValuePin`, `GetReturnValuePin`
and `GetOptionPins`, and its members `VariableType` (set to the int type by
the constructor) and `PinNames`. -/
structure UDialogueK2Node_Select where
  NodeId : Nat
  VariableNamePin : UEdGraphPin
  DefaultValuePin : UEdGraphPin
  ReturnValuePin : UEdGraphPin
  OptionPins : List UEdGraphPin
  VariableType : EDlgVariableType := .DlgVariableTypeInt
  PinNames : List FName := []

/-- Handler (`FKCHandler_Select`): `BoolTermMap` by its `FindRef`, keyed by
node identity; `none` is the null pointer `FindRef` returns for a node that
was never registered. -/
structure FKCHandler_Select where
  BoolTermMap : Nat → Option TermRef

/-- `UDialogueK2Node_Select::GetConditionalFunction`. -/
def UDialogueK2Node_Select.GetConditionalFunction (_ : UDialogueK2Node_Select) :
    Option UFunction :=
  some .EqualEqual_NameName

/-! ## Operations of the function context -/

/-- Modelled from the spec: the statement emission sink of the host,
`append-statement(ownerNode)`, which appends a fresh statement in call order
and hands back a handle to it. -/
def FKismetFunctionContext.AppendStatementForNode (Context : FKismetFunctionContext) :
    FKismetFunctionContext × Nat :=
  ({ Context with AllGeneratedStatements := Context.AllGeneratedStatements ++ [{}] },
    Context.AllGeneratedStatements.length)

/-- Modelled from the spec: `create-local-terminal(type, literal?)` of the
host, which allocates a fresh terminal, a literal one in the literal pool. -/
def FKismetFunctionContext.CreateLocalTerminal (Context : FKismetFunctionContext)
    (Spec : ETerminalSpecification) : FKismetFunctionContext × TermRef :=
  match Spec with
  | .TS_Literal =>
    ({ Context with Literals := Context.Literals ++ [{ bIsLiteral := true }] },
      .lit Context.Literals.length)
  | .TS_Unspecified =>
    ({ Context with Locals := Context.Locals ++ [{}] }, .loc Context.Locals.length)

/-- Write through a statement pointer. -/
def FKismetFunctionContext.updateStatement (Context : FKismetFunctionContext) (p : Nat)
    (f : FBlueprintCompiledStatement → FBlueprintCompiledStatement) : FKismetFunctionContext :=
  { Context with AllGeneratedStatements := Context.AllGeneratedStatements.modify f p }

/-- Write through a terminal pointer. -/
def FKismetFunctionContext.updateTerminal (Context : FKismetFunctionContext) (t : TermRef)
    (f : FBPTerminal → FBPTerminal) : FKismetFunctionContext :=
  match t with
  | .lit i => { Context with Literals := Context.Literals.modify f i }
  | .loc i => { Context with Locals := Context.Locals.modify f i }

/-- Text of the error `Error_UnregisterOptionPin`. -/
def Error_UnregisterOptionPin : String := "Unregister option pin @@"

/-- `MessageLog.Error(text, pin)`. -/
def FKismetFunctionContext.Error (Context : FKismetFunctionContext) (msg : String)
    (pin : UEdGraphPin) : FKismetFunctionContext :=
  { Context with MessageLog := Context.MessageLog ++ [(msg, pin)] }

/-! ## `FKCHandler_Select::Compile` -/

/-- Local variables of `Compile` that live across iterations of the option
loop. -/
structure LoopState where
  Context : FKismetFunctionContext
  PrevIfNotStatement : Option Nat
  GotoStatementList : List Nat

/-- One iteration of the option loop of `Compile` (source lines 122 to 202).
`Except.error` is the early `return` after the error was logged. -/
def CompileOption (G : FEdGraphUtilities) (ConditionFunction : Option UFunction)
    (BoolTerm : Option TermRef) (ConditionTerm ReturnTerm DefaultTerm : TermRef)
    (OptionsNum OptionIndex : Nat) (OptionPin : UEdGraphPin) (st : LoopState) :
    Except FKismetFunctionContext LoopState :=
  -- the CallFunction statement of the condition
  let (Context, CallConditionFunctionStatement) := st.Context.AppendStatementForNode
  let Context := Context.updateStatement CallConditionFunctionStatement fun s =>
    { s with
      Type_ := .KCST_CallFunction
      FunctionToCall := ConditionFunction
      FunctionContext := none
      bIsParentContext := false
      LHS := BoolTerm
      RHS := s.RHS ++ [ConditionTerm] }
  -- the literal of the current option pin
  let (Context, LiteralTerm) := Context.CreateLocalTerminal .TS_Literal
  let Context := Context.updateTerminal LiteralTerm fun t =>
    { t with bIsLiteral := true, PinCategory := PC_Name, Name := OptionPin.PinName }
  let Context := Context.updateStatement CallConditionFunctionStatement fun s =>
    { s with RHS := s.RHS ++ [LiteralTerm] }
  -- hook the previous IfNot statement to this one
  let Context :=
    match st.PrevIfNotStatement with
    | some PrevIfNotStatement =>
      (Context.updateStatement CallConditionFunctionStatement fun s =>
        { s with bIsJumpTarget := true }).updateStatement PrevIfNotStatement fun s =>
        { s with TargetLabel := some CallConditionFunctionStatement }
    | none => Context
  -- the GotoIfNot statement
  let (Context, IfNotStatement) := Context.AppendStatementForNode
  let Context := Context.updateStatement IfNotStatement fun s =>
    { s with Type_ := .KCST_GotoIfNot, LHS := BoolTerm }
  -- the assignment of the option value
  let (Context, AssignStatement) := Context.AppendStatementForNode
  let Context := Context.updateStatement AssignStatement fun s =>
    { s with Type_ := .KCST_Assignment, LHS := some ReturnTerm }
  match Context.NetMap (G.GetNetFromPin OptionPin) with
  | none => .error (Context.Error Error_UnregisterOptionPin OptionPin)
  | some OptionTerm =>
    let Context := Context.updateStatement AssignStatement fun s =>
      { s with RHS := s.RHS ++ [OptionTerm] }
    -- the unconditional goto that exits the node
    let (Context, GotoStatement) := Context.AppendStatementForNode
    let Context := Context.updateStatement GotoStatement fun s =>
      { s with Type_ := .KCST_UnconditionalGoto }
    let GotoStatementList := st.GotoStatementList ++ [GotoStatement]
    -- the last IfNot statement jumps to the default value
    let Context :=
      if OptionIndex = OptionsNum - 1 then
        let (Context, DefaultAssign) := Context.AppendStatementForNode
        let Context := Context.updateStatement DefaultAssign fun s =>
          { s with
            Type_ := .KCST_Assignment
            bIsJumpTarget := true
            LHS := some ReturnTerm
            RHS := s.RHS ++ [DefaultTerm] }
        Context.updateStatement IfNotStatement fun s =>
          { s with TargetLabel := some DefaultAssign }
      else Context
    .ok { Context := Context, PrevIfNotStatement := some IfNotStatement,
          GotoStatementList := GotoStatementList }

/-- The option loop of `Compile`: `OptionPins` are the pins from `OptionIndex`
on. -/
def CompileOptions (G : FEdGraphUtilities) (ConditionFunction : Option UFunction)
    (BoolTerm : Option TermRef) (ConditionTerm ReturnTerm DefaultTerm : TermRef)
    (OptionsNum : Nat) :
    List UEdGraphPin → Nat → LoopState → Except FKismetFunctionContext LoopState
  | [], _, st => .ok st
  | OptionPin :: rest, OptionIndex, st =>
    match CompileOption G ConditionFunction BoolTerm ConditionTerm ReturnTerm DefaultTerm
        OptionsNum OptionIndex OptionPin st with
    | .error Context => .error Context
    | .ok st => CompileOptions G ConditionFunction BoolTerm ConditionTerm ReturnTerm
        DefaultTerm OptionsNum rest (OptionIndex + 1) st

/-- The tail of `Compile` (source lines 205 to 214): the final `Nop` and the
retargeting of the collected gotos. -/
def CompileExit (st : LoopState) : FKismetFunctionContext :=
  let (Context, NopStatement) := st.Context.AppendStatementForNode
  let Context := Context.updateStatement NopStatement fun s =>
    { s with Type_ := .KCST_Nop, bIsJumpTarget := true }
  st.GotoStatementList.foldl
    (fun Context GotoStatement => Context.updateStatement GotoStatement fun s =>
      { s with TargetLabel := some NopStatement })
    Context

/-- `FKCHandler_Select::Compile`. The result is the function context after the
call. -/
def FKCHandler_Select.Compile (H : FKCHandler_Select) (G : FEdGraphUtilities)
    (Context : FKismetFunctionContext) (SelectNode : UDialogueK2Node_Select) :
    FKismetFunctionContext :=
  let OptionPins := SelectNode.OptionPins
  let ConditionTerm := Context.NetMap (G.GetNetFromPin SelectNode.VariableNamePin)
  let ReturnTerm := Context.NetMap SelectNode.ReturnValuePin
  let DefaultTerm := Context.NetMap (G.GetNetFromPin SelectNode.DefaultValuePin)
  match ConditionTerm, ReturnTerm, DefaultTerm with
  | some ConditionTerm, some ReturnTerm, some DefaultTerm =>
    let ConditionFunction := SelectNode.GetConditionalFunction
    let BoolTerm := H.BoolTermMap SelectNode.NodeId
    let OptionsNum := OptionPins.length
    match CompileOptions G ConditionFunction BoolTerm ConditionTerm ReturnTerm DefaultTerm
        OptionsNum OptionPins 0
        { Context := Context, PrevIfNotStatement := none, GotoStatementList := [] } with
    | .error Context => Context
    | .ok st => CompileExit st
  | _, _, _ => Context

/-- Statements appended by `Compile` to the function context. -/
def emitted (H : FKCHandler_Select) (G : FEdGraphUtilities)
    (Context : FKismetFunctionContext) (SelectNode : UDialogueK2Node_Select) :
    List FBlueprintCompiledStatement :=
  (H.Compile G Context SelectNode).AllGeneratedStatements.drop
    Context.AllGeneratedStatements.length

/-! ## Layout of the emitted statements

The statements `Compile` leaves behind, written down directly. They are
related to `Compile` by the lemmas of the next part. -/

/-- Operands of one lowering and the sizes of the statement list and of the
literal pool at its start. `val` is `NetMap` after `GetNetFromPin`. -/
structure Layout where
  fn : Option UFunction
  B : Option TermRef
  S : TermRef
  R : TermRef
  D : TermRef
  base : Nat
  lits : Nat
  val : UEdGraphPin → Option TermRef

/-- Layout of `Compile` on a context and a node whose selector, result and
default terminals are `S`, `R` and `D`. -/
def layoutOf (H : FKCHandler_Select) (G : FEdGraphUtilities)
    (Context : FKismetFunctionContext) (SelectNode : UDialogueK2Node_Select)
    (S R D : TermRef) : Layout :=
  { fn := SelectNode.GetConditionalFunction
    B := H.BoolTermMap SelectNode.NodeId
    S := S
    R := R
    D := D
    base := Context.AllGeneratedStatements.length
    lits := Context.Literals.length
    val := fun p => Context.NetMap (G.GetNetFromPin p) }

/-- The four statements of option `j` on pin `p`, with the given targets of
its conditional skip and of its exit goto. -/
def optionBlock (L : Layout) (skip exit : Option Nat) (j : Nat) (p : UEdGraphPin) :
    List FBlueprintCompiledStatement :=
  [ { Type_ := .KCST_CallFunction, FunctionToCall := L.fn, LHS := L.B,
      RHS := [L.S, .lit (L.lits + j)], bIsJumpTarget := decide (0 < j) },
    { Type_ := .KCST_GotoIfNot, LHS := L.B, TargetLabel := skip },
    { Type_ := .KCST_Assignment, LHS := some L.R, RHS := (L.val p).toList },
    { Type_ := .KCST_UnconditionalGoto, TargetLabel := exit } ]

/-- The blocks of the options `j, j+1, ...`, every skip pointing at the
statement after its block. -/
def chain (L : Layout) (exit : Option Nat) : Nat → List UEdGraphPin →
    List FBlueprintCompiledStatement
  | _, [] => []
  | j, p :: rest =>
    optionBlock L (some (L.base + 4 * (j + 1))) exit j p ++ chain L exit (j + 1) rest

/-- The default assignment. -/
def defaultAssign (L : Layout) : FBlueprintCompiledStatement :=
  { Type_ := .KCST_Assignment, bIsJumpTarget := true, LHS := some L.R, RHS := [L.D] }

/-- The final no-op. -/
def exitNop : FBlueprintCompiledStatement :=
  { Type_ := .KCST_Nop, bIsJumpTarget := true }

/-- The literal of an option pin. -/
def literalOf (p : UEdGraphPin) : FBPTerminal :=
  { Name := p.PinName, PinCategory := PC_Name, bIsLiteral := true }

/-- Pointers to the exit gotos of the options `j, j+1, ...`. -/
def gotoPtrs (base : Nat) : Nat → List UEdGraphPin → List Nat
  | _, [] => []
  | j, _ :: rest => (base + 4 * j + 3) :: gotoPtrs base (j + 1) rest

/-- Statements after the option loop went through the pins `xs` without
reaching the last option: the last skip and every exit goto are still open. -/
def openStatements (L : Layout) (xs : List UEdGraphPin) : List FBlueprintCompiledStatement :=
  chain L none 0 xs.dropLast ++
    (match xs.getLast? with
      | none => []
      | some y => optionBlock L none none (xs.length - 1) y)

/-- Loop state after the option loop went through the pins `xs` without
reaching the last option. -/
def openState (L : Layout) (Context : FKismetFunctionContext) (xs : List UEdGraphPin) :
    LoopState :=
  { Context := { Context with
      AllGeneratedStatements := Context.AllGeneratedStatements ++ openStatements L xs
      Literals := Context.Literals ++ xs.map literalOf }
    PrevIfNotStatement := if xs = [] then none else some (L.base + 4 * (xs.length - 1) + 1)
    GotoStatementList := gotoPtrs L.base 0 xs }

/-- Statements of a lowering that went through: `n = 0` leaves the no-op
alone. -/
def loweredStatements (L : Layout) (opts : List UEdGraphPin) :
    List FBlueprintCompiledStatement :=
  chain L (some (L.base + 4 * opts.length + (if opts = [] then 0 else 1))) 0 opts ++
    (if opts = [] then [] else [defaultAssign L]) ++ [exitNop]

/-- Statements of a lowering that stopped at the pin `p` after the pins
`xs`. -/
def abortedStatements (L : Layout) (xs : List UEdGraphPin) (p : UEdGraphPin) :
    List FBlueprintCompiledStatement :=
  chain L none 0 xs ++ (optionBlock L none none xs.length p).take 3

/-! ## Execution of a statement list -/

/-- Runtime values: names, booleans and numbers. -/
inductive Value where
  | name (n : String)
  | bool (b : Bool)
  | num (i : Int)
deriving DecidableEq, Repr

/-- Contents of the terminals at run time. -/
abbrev Env := TermRef → Value

/-- Store a value in a terminal. -/
def Env.write (env : Env) (t : TermRef) (v : Value) : Env :=
  fun u => if u = t then v else env u

/-- Value of a terminal: a name literal reads as the name it carries, any
other terminal reads from the store. -/
def evalTerm (Literals : List FBPTerminal) (env : Env) (t : TermRef) : Value :=
  match t with
  | .loc _ => env t
  | .lit i =>
    match Literals[i]? with
    | some T => if T.bIsLiteral = true ∧ T.PinCategory = PC_Name then .name T.Name else env t
    | none => env t

/-- The condition function is true exactly when its two name operands are
equal. -/
def callFunction : UFunction → List Value → Option Value
  | .EqualEqual_NameName, [.name a, .name b] => some (.bool (decide (a = b)))
  | _, _ => none

/-- Modelled from the spec: the statement kinds of the abstract target
machine (`CallFunction(dest, fn, args...)`, `GotoIfNot(cond, target)`,
`Assign(dest, src)`, `UnconditionalGoto(target)`, `Nop()`), which the host
executes as a linear instruction stream. The result is the next position and
store, `none` when the statement cannot run. -/
def execStatement (Literals : List FBPTerminal) (s : FBlueprintCompiledStatement)
    (pc : Nat) (env : Env) : Option (Nat × Env) :=
  match s.Type_ with
  | .KCST_Nop => some (pc + 1, env)
  | .KCST_CallFunction =>
    match s.FunctionToCall, s.LHS with
    | some f, some dst =>
      (callFunction f (s.RHS.map (evalTerm Literals env))).map
        fun v => (pc + 1, env.write dst v)
    | _, _ => none
  | .KCST_Assignment =>
    match s.LHS, s.RHS with
    | some dst, [src] => some (pc + 1, env.write dst (evalTerm Literals env src))
    | _, _ => none
  | .KCST_GotoIfNot =>
    match s.LHS, s.TargetLabel with
    | some c, some t =>
      match evalTerm Literals env c with
      | .bool true => some (pc + 1, env)
      | .bool false => some (t, env)
      | _ => none
    | _, _ => none
  | .KCST_UnconditionalGoto => s.TargetLabel.map fun t => (t, env)

/-- Run a statement list from position `pc` for at most `fuel` statements.
Execution ends when control leaves the list at its end; the result is the
store at that point, `none` when a statement cannot run or the fuel runs
out. -/
def run (stmts : List FBlueprintCompiledStatement) (Literals : List FBPTerminal) :
    Nat → Nat → Env → Option Env
  | fuel, pc, env =>
    if pc = stmts.length then some env
    else
      match fuel with
      | 0 => none
      | fuel + 1 =>
        match stmts[pc]? with
        | none => none
        | some s =>
          match execStatement Literals s pc env with
          | none => none
          | some (pc', env') => run stmts Literals fuel pc' env'

/-- Run the statements `Compile` appended to a context, from the first of
them. -/
def runEmitted (H : FKCHandler_Select) (G : FEdGraphUtilities)
    (Context : FKismetFunctionContext) (SelectNode : UDialogueK2Node_Select)
    (fuel : Nat) (env : Env) : Option Env :=
  run (H.Compile G Context SelectNode).AllGeneratedStatements
    (H.Compile G Context SelectNode).Literals fuel
    Context.AllGeneratedStatements.length env

/-! ## A sample node

Selector in local 0, default in local 1, result in local 2, scratch boolean
in local 3, and the value of an option pin `k` in local `k`. -/

/-- Pins of the sample node. -/
def samplePin (id : Nat) (name : String) : UEdGraphPin := { PinId := id, PinName := name }

/-- Pin to terminal map of the sample context: pin `k` below 20 is held by
local `k`, any other pin is not registered. -/
def sampleNetMap : UEdGraphPin → Option TermRef :=
  fun p => if p.PinId < 20 then some (.loc p.PinId) else none

/-- Sample context: nothing emitted yet. -/
def sampleContext : FKismetFunctionContext :=
  { NetMap := sampleNetMap, Literals := [], Locals := [], AllGeneratedStatements := [],
    MessageLog := [] }

/-- Sample graph: no pin is linked. -/
def sampleGraph : FEdGraphUtilities := { GetNetFromPin := fun p => p }

/-- Sample handler: the scratch boolean of every node is local 3. -/
def sampleHandler : FKCHandler_Select := { BoolTermMap := fun _ => some (.loc 3) }

/-- Sample node with the given option pins. -/
def sampleNode (opts : List UEdGraphPin) : UDialogueK2Node_Select :=
  { NodeId := 7, VariableNamePin := samplePin 0 "VariableName",
    DefaultValuePin := samplePin 1 "DefaultValue", ReturnValuePin := samplePin 2 "ReturnValue",
    OptionPins := opts }

/-- Sample store: the selector (local 0) holds the given name, the default
(local 1) and the values of the pins 10 and 11 (locals 10 and 11) hold the
given numbers, every other terminal holds 0. -/
def sampleEnv (selector : String) (dflt v10 v11 : Int) : Env :=
  fun t =>
    if t = .loc 0 then .name selector
    else if t = .loc 1 then .num dflt
    else if t = .loc 10 then .num v10
    else if t = .loc 11 then .num v11
    else .num 0

/-- Sample context in which the result pin (pin 2) is not registered. -/
def sampleContextNoResult : FKismetFunctionContext :=
  { sampleContext with NetMap := fun p => if p.PinId = 2 then none else sampleNetMap p }

/-! ## Comparing two lowerings -/

/-- Two operands play the same role in two lowerings: they are the same
terminal, or they are literals the two lowerings created (at or past the
sizes `lits1` and `lits2` the literal pools had before), at the same distance
from the start of what each created and with the same contents. -/
def sameOperand (lits1 lits2 : Nat) (Lits1 Lits2 : List FBPTerminal) (t1 t2 : TermRef) : Prop :=
  t1 = t2 ∨
    match t1, t2 with
    | .lit i1, .lit i2 =>
      lits1 ≤ i1 ∧ lits2 ≤ i2 ∧ i1 - lits1 = i2 - lits2 ∧
        Lits1[i1]? = Lits2[i2]? ∧ (Lits1[i1]?).isSome = true
    | _, _ => False

instance (lits1 lits2 : Nat) (Lits1 Lits2 : List FBPTerminal) (t1 t2 : TermRef) :
    Decidable (sameOperand lits1 lits2 Lits1 Lits2 t1 t2) := by
  unfold sameOperand
  cases t1 <;> cases t2 <;> infer_instance

/-- Two jump targets are the same relative to the starts `base1` and `base2`
of the two emitted blocks: both null, or both set at the same distance from
the start of their block. -/
def sameTarget (base1 base2 : Nat) : Option Nat → Option Nat → Prop
  | none, none => True
  | some t1, some t2 => base1 ≤ t1 ∧ base2 ≤ t2 ∧ t1 - base1 = t2 - base2
  | _, _ => False

instance (base1 base2 : Nat) (t1 t2 : Option Nat) : Decidable (sameTarget base1 base2 t1 t2) := by
  cases t1 <;> cases t2 <;> unfold sameTarget <;> infer_instance

/-- Two statements are structurally the same: same kind, function, left hand
side and jump-target marker, operands of the same role and the same relative
jump target. -/
def sameStatement (base1 base2 lits1 lits2 : Nat) (Lits1 Lits2 : List FBPTerminal)
    (s1 s2 : FBlueprintCompiledStatement) : Prop :=
  s1.Type_ = s2.Type_ ∧ s1.FunctionToCall = s2.FunctionToCall ∧
    s1.FunctionContext = s2.FunctionContext ∧ s1.bIsParentContext = s2.bIsParentContext ∧
    s1.LHS = s2.LHS ∧
    List.Forall₂ (sameOperand lits1 lits2 Lits1 Lits2) s1.RHS s2.RHS ∧
    s1.bIsJumpTarget = s2.bIsJumpTarget ∧
    sameTarget base1 base2 s1.TargetLabel s2.TargetLabel

instance (base1 base2 lits1 lits2 : Nat) (Lits1 Lits2 : List FBPTerminal)
    (s1 s2 : FBlueprintCompiledStatement) :
    Decidable (sameStatement base1 base2 lits1 lits2 Lits1 Lits2 s1 s2) := by
  unfold sameStatement
  infer_instance

/-- Sample context that already holds two statements and a literal. -/
def sampleContextBusy : FKismetFunctionContext :=
  { sampleContext with
    AllGeneratedStatements := [{}, { Type_ := .KCST_Assignment }]
    Literals := [{ Name := "5", PinCategory := "int", bIsLiteral := true }] }

/-! ## Control flow of a statement list -/

/-- Position control moves to after the statement `s` at position `pc`, where
`cond` is the outcome of the condition when `s` is a GotoIfNot; `none` when
the target of a jump is not set. This is the control part of
`execStatement`. -/
def nextPosition (s : FBlueprintCompiledStatement) (pc : Nat) (cond : Bool) : Option Nat :=
  match s.Type_ with
  | .KCST_GotoIfNot => if cond then some (pc + 1) else s.TargetLabel
  | .KCST_UnconditionalGoto => s.TargetLabel
  | _ => some (pc + 1)

/-- Positions visited, in order, by an execution from position `pc` in which
the condition of the statement at step `k` comes out as `outcomes k`, for at
most `fuel` statements. Execution ends when control leaves the list at its
end; `none` when control cannot move on or the fuel runs out. -/
def walk (stmts : List FBlueprintCompiledStatement) :
    (Nat → Bool) → Nat → Nat → Option (List Nat)
  | outcomes, fuel, pc =>
    if pc = stmts.length then some []
    else
      match fuel with
      | 0 => none
      | fuel + 1 =>
        match stmts[pc]? with
        | none => none
        | some s =>
          match nextPosition s pc (outcomes 0) with
          | none => none
          | some pc2 =>
            (walk stmts (fun k => outcomes (k + 1)) fuel pc2).map (fun tr => pc :: tr)

/-! ## `UDialogueK2Node_Select::RefreshPinNames` -/

/-- Editor module: `FDlgSystemEditorModule::GetParticipantNameFromNode`. -/
structure FDlgSystemEditorModule where
  GetParticipantNameFromNode : UDialogueK2Node_Select → FName

/-- Dialogue manager: the names `UDlgManager::GetAllDialoguesFloatNames` and
`UDlgManager::GetAllDialoguesIntNames` put in an empty array for a
participant. -/
structure UDlgManager where
  GetAllDialoguesFloatNames : FName → List FName
  GetAllDialoguesIntNames : FName → List FName

/-- The comparison loop of `RefreshPinNames` (source lines 382 to 389), from
index `i` with `remaining` indices to go: `true` when it finds an index at
which the two arrays differ and returns from inside the loop. -/
def findDifference (NewPinNames PinNames : List FName) : Nat → Nat → Bool
  | _, 0 => false
  | i, remaining + 1 =>
    if NewPinNames[i]? != PinNames[i]? then true
    else findDifference NewPinNames PinNames (i + 1) remaining

/-- `UDialogueK2Node_Select::RefreshPinNames`: the returned flag and the node
after the call; `none` is `unimplemented()`. -/
def UDialogueK2Node_Select.RefreshPinNames (M : FDlgSystemEditorModule) (D : UDlgManager)
    (this : UDialogueK2Node_Select) : Option (Bool × UDialogueK2Node_Select) :=
  let ParticipantName := M.GetParticipantNameFromNode this
  if ParticipantName == NAME_None then some (false, this)
  else
    let Fetched : Option (List FName) :=
      match this.VariableType with
      | .DlgVariableTypeFloat => some (D.GetAllDialoguesFloatNames ParticipantName)
      | .DlgVariableTypeInt => some (D.GetAllDialoguesIntNames ParticipantName)
      | _ => none
    match Fetched with
    | none => none
    | some NewPinNames =>
      -- size changed, simply copy
      if NewPinNames.length ≠ this.PinNames.length then
        some (true, { this with PinNames := NewPinNames })
      -- find any difference, if any
      else if findDifference NewPinNames this.PinNames 0 NewPinNames.length then
        some (true, { this with PinNames := NewPinNames })
      else some (false, this)

/-- Sample name: entry `index` of the name table, written in the case of
entry `display`. -/
def sampleName (index display : Nat) : FName :=
  { ComparisonIndex := index, DisplayIndex := display, Number := 0 }

/-- Sample editor module: every node belongs to the participant of name 7. -/
def sampleModule : FDlgSystemEditorModule :=
  { GetParticipantNameFromNode := fun _ => sampleName 7 7 }

/-- Sample editor module in which the participant of every node is the name
`NAME_None` written in another case. -/
def sampleModuleNone : FDlgSystemEditorModule :=
  { GetParticipantNameFromNode := fun _ => sampleName 0 9 }

/-- Sample dialogue manager: the int names are the names 1 and 2, the float
names the name 3. -/
def sampleManager : UDlgManager :=
  { GetAllDialoguesFloatNames := fun _ => [sampleName 3 3]
    GetAllDialoguesIntNames := fun _ => [sampleName 1 1, sampleName 2 2] }

/-- Sample node without option pins that stores the given pin names. -/
def sampleNamedNode (names : List FName) : UDialogueK2Node_Select :=
  { sampleNode [] with PinNames := names }

/-! ## Writes through statement pointers -/

theorem modify_append_left {α : Type} (f : α → α) :
    ∀ (l m : List α) (k : Nat), k < l.length → (l ++ m).modify f k = l.modify f k ++ m
  | [], _, _, h => by simp at h
  | a :: l, m, 0, _ => by simp
  | a :: l, m, k + 1, h => by
    have h2 : k < l.length := by simpa using h
    simp [modify_append_left f l m k h2]

theorem modify_append_right {α : Type} (f : α → α) :
    ∀ (l m : List α) (n : Nat), l.length ≤ n →
      (l ++ m).modify f n = l ++ m.modify f (n - l.length)
  | [], m, n, _ => by simp
  | a :: l, m, 0, h => by simp at h
  | a :: l, m, n + 1, h => by
    have h2 : l.length ≤ n := by simpa using h
    simp [modify_append_right f l m n h2]

theorem modify_append_length {α : Type} (f : α → α) (l m : List α) (a : α) :
    (l ++ a :: m).modify f l.length = l ++ f a :: m := by
  have := modify_append_right f l (a :: m) l.length (Nat.le_refl _)
  simpa using this

/-! ## One iteration of the option loop -/

/-- One iteration on an option whose value terminal resolves. -/
theorem CompileOption_ok (G : FEdGraphUtilities) (fn : Option UFunction)
    (B : Option TermRef) (S R D : TermRef) (N i : Nat) (p : UEdGraphPin) (st : LoopState)
    (v : TermRef) (hv : st.Context.NetMap (G.GetNetFromPin p) = some v)
    (hq : ∀ q, st.PrevIfNotStatement = some q → q < st.Context.AllGeneratedStatements.length) :
    CompileOption G fn B S R D N i p st = .ok
      { Context := { st.Context with
          AllGeneratedStatements :=
            (match st.PrevIfNotStatement with
              | some q => st.Context.AllGeneratedStatements.modify
                  (fun s => { s with TargetLabel := some st.Context.AllGeneratedStatements.length }) q
              | none => st.Context.AllGeneratedStatements) ++
            [ { Type_ := .KCST_CallFunction, FunctionToCall := fn, LHS := B,
                RHS := [S, .lit st.Context.Literals.length],
                bIsJumpTarget := st.PrevIfNotStatement.isSome },
              { Type_ := .KCST_GotoIfNot, LHS := B,
                TargetLabel := if i = N - 1 then
                  some (st.Context.AllGeneratedStatements.length + 4) else none },
              { Type_ := .KCST_Assignment, LHS := some R, RHS := [v] },
              { Type_ := .KCST_UnconditionalGoto } ] ++
            (if i = N - 1 then
              [ { Type_ := .KCST_Assignment, bIsJumpTarget := true, LHS := some R, RHS := [D] } ]
             else [])
          Literals := st.Context.Literals ++ [literalOf p] }
        PrevIfNotStatement := some (st.Context.AllGeneratedStatements.length + 1)
        GotoStatementList := st.GotoStatementList ++
          [st.Context.AllGeneratedStatements.length + 3] } := by
  obtain ⟨ctx, prev, gotos⟩ := st
  obtain ⟨nm, lits, locs, L, log⟩ := ctx
  simp only at hv hq
  cases prev with
  | none =>
    by_cases hl : i = N - 1 <;>
    simp [CompileOption, FKismetFunctionContext.AppendStatementForNode,
        FKismetFunctionContext.updateStatement, FKismetFunctionContext.CreateLocalTerminal,
        FKismetFunctionContext.updateTerminal, hv, hl, modify_append_length,
        modify_append_right, Nat.add_assoc, literalOf]
  | some q =>
    have hq2 : q < L.length := hq q rfl
    by_cases hl : i = N - 1 <;>
    simp [CompileOption, FKismetFunctionContext.AppendStatementForNode,
        FKismetFunctionContext.updateStatement, FKismetFunctionContext.CreateLocalTerminal,
        FKismetFunctionContext.updateTerminal, hv, hl, modify_append_length,
        modify_append_right, modify_append_left, hq2, Nat.add_assoc, literalOf]

/-- One iteration on an option whose value terminal is missing. -/
theorem CompileOption_error (G : FEdGraphUtilities) (fn : Option UFunction)
    (B : Option TermRef) (S R D : TermRef) (N i : Nat) (p : UEdGraphPin) (st : LoopState)
    (hv : st.Context.NetMap (G.GetNetFromPin p) = none)
    (hq : ∀ q, st.PrevIfNotStatement = some q → q < st.Context.AllGeneratedStatements.length) :
    CompileOption G fn B S R D N i p st = .error
      { st.Context with
          AllGeneratedStatements :=
            (match st.PrevIfNotStatement with
              | some q => st.Context.AllGeneratedStatements.modify
                  (fun s => { s with TargetLabel := some st.Context.AllGeneratedStatements.length }) q
              | none => st.Context.AllGeneratedStatements) ++
            [ { Type_ := .KCST_CallFunction, FunctionToCall := fn, LHS := B,
                RHS := [S, .lit st.Context.Literals.length],
                bIsJumpTarget := st.PrevIfNotStatement.isSome },
              { Type_ := .KCST_GotoIfNot, LHS := B },
              { Type_ := .KCST_Assignment, LHS := some R } ]
          Literals := st.Context.Literals ++ [literalOf p]
          MessageLog := st.Context.MessageLog ++ [(Error_UnregisterOptionPin, p)] } := by
  obtain ⟨ctx, prev, gotos⟩ := st
  obtain ⟨nm, lits, locs, L, log⟩ := ctx
  simp only at hv hq
  cases prev with
  | none =>
    simp [CompileOption, FKismetFunctionContext.AppendStatementForNode,
        FKismetFunctionContext.updateStatement, FKismetFunctionContext.CreateLocalTerminal,
        FKismetFunctionContext.updateTerminal, FKismetFunctionContext.Error, hv,
        modify_append_length, modify_append_right, Nat.add_assoc, literalOf]
  | some q =>
    have hq2 : q < L.length := hq q rfl
    simp [CompileOption, FKismetFunctionContext.AppendStatementForNode,
        FKismetFunctionContext.updateStatement, FKismetFunctionContext.CreateLocalTerminal,
        FKismetFunctionContext.updateTerminal, FKismetFunctionContext.Error, hv,
        modify_append_length, modify_append_right, modify_append_left, hq2, Nat.add_assoc,
        literalOf]

/-! ## The layout lists -/

theorem length_optionBlock (L : Layout) (skip exit : Option Nat) (j : Nat) (p : UEdGraphPin) :
    (optionBlock L skip exit j p).length = 4 := rfl

theorem length_chain (L : Layout) (exit : Option Nat) :
    ∀ (xs : List UEdGraphPin) (j : Nat), (chain L exit j xs).length = 4 * xs.length
  | [], _ => rfl
  | p :: rest, j => by
    simp [chain, length_chain L exit rest (j + 1), length_optionBlock]
    omega

theorem chain_append (L : Layout) (exit : Option Nat) :
    ∀ (xs ys : List UEdGraphPin) (j : Nat),
      chain L exit j (xs ++ ys) = chain L exit j xs ++ chain L exit (j + xs.length) ys
  | [], ys, j => by simp [chain]
  | p :: rest, ys, j => by
    have e : j + 1 + rest.length = j + (rest.length + 1) := by omega
    simp [chain, chain_append L exit rest ys (j + 1), e]

theorem gotoPtrs_append (base : Nat) :
    ∀ (xs ys : List UEdGraphPin) (j : Nat),
      gotoPtrs base j (xs ++ ys) = gotoPtrs base j xs ++ gotoPtrs base (j + xs.length) ys
  | [], ys, j => by simp [gotoPtrs]
  | p :: rest, ys, j => by
    have e : j + 1 + rest.length = j + (rest.length + 1) := by omega
    simp [gotoPtrs, gotoPtrs_append base rest ys (j + 1), e]

/-! ## The option loop -/

theorem CompileOptions_append (G : FEdGraphUtilities) (fn : Option UFunction)
    (B : Option TermRef) (S R D : TermRef) (N : Nat) :
    ∀ (xs ys : List UEdGraphPin) (i : Nat) (st : LoopState),
      CompileOptions G fn B S R D N (xs ++ ys) i st =
        match CompileOptions G fn B S R D N xs i st with
        | .error c => .error c
        | .ok st2 => CompileOptions G fn B S R D N ys (i + xs.length) st2
  | [], ys, i, st => by simp [CompileOptions]
  | p :: rest, ys, i, st => by
    have e : i + (p :: rest).length = i + 1 + rest.length := by simp; omega
    simp only [List.cons_append, CompileOptions]
    cases h : CompileOption G fn B S R D N i p st with
    | error c => simp
    | ok st2 =>
      rw [e]
      exact CompileOptions_append G fn B S R D N rest ys (i + 1) st2

/-- An iteration that is not the last one extends the open state by its pin. -/
theorem CompileOption_open (G : FEdGraphUtilities) (L : Layout) (C : FKismetFunctionContext)
    (N : Nat) (xs : List UEdGraphPin) (p : UEdGraphPin) (v : TermRef)
    (hbase : L.base = C.AllGeneratedStatements.length) (hlits : L.lits = C.Literals.length)
    (hval : L.val p = C.NetMap (G.GetNetFromPin p))
    (hv : C.NetMap (G.GetNetFromPin p) = some v) (hN : xs.length ≠ N - 1) :
    CompileOption G L.fn L.B L.S L.R L.D N xs.length p (openState L C xs) =
      .ok (openState L C (xs ++ [p])) := by
  rcases List.eq_nil_or_concat xs with rfl | ⟨ys, y, rfl⟩
  · have hN2 : ¬ 0 = N - 1 := by simpa using hN
    rw [CompileOption_ok G L.fn L.B L.S L.R L.D N _ p _ v (by simpa [openState] using hv)
      (by simp [openState])]
    simp [openState, openStatements, chain, optionBlock, gotoPtrs, hN2, hval, hv, hlits, hbase]
  · have hN2 : ¬ ys.length + 1 = N - 1 := by simpa using hN
    rw [CompileOption_ok G L.fn L.B L.S L.R L.D N _ p _ v (by simpa [openState] using hv)
      (by simp [openState, openStatements, length_chain, optionBlock, hbase]; omega)]
    simp [openState, openStatements, chain, optionBlock, gotoPtrs, hN2, hval, hv, hlits, hbase,
      chain_append, gotoPtrs_append, length_chain, modify_append_right, modify_append_left,
      Nat.add_assoc]
    omega

/-- The last iteration closes the last skip with the default assignment. -/
theorem CompileOption_last (G : FEdGraphUtilities) (L : Layout) (C : FKismetFunctionContext)
    (N : Nat) (xs : List UEdGraphPin) (p : UEdGraphPin) (v : TermRef)
    (hbase : L.base = C.AllGeneratedStatements.length) (hlits : L.lits = C.Literals.length)
    (hval : L.val p = C.NetMap (G.GetNetFromPin p))
    (hv : C.NetMap (G.GetNetFromPin p) = some v) (hN : xs.length = N - 1) :
    CompileOption G L.fn L.B L.S L.R L.D N xs.length p (openState L C xs) =
      .ok { Context := { C with
              AllGeneratedStatements := C.AllGeneratedStatements ++
                (chain L none 0 (xs ++ [p]) ++ [defaultAssign L])
              Literals := C.Literals ++ (xs ++ [p]).map literalOf }
            PrevIfNotStatement := some (L.base + 4 * xs.length + 1)
            GotoStatementList := gotoPtrs L.base 0 (xs ++ [p]) } := by
  rcases List.eq_nil_or_concat xs with rfl | ⟨ys, y, rfl⟩
  · have hN2 : N - 1 = 0 := by simpa using hN.symm
    rw [CompileOption_ok G L.fn L.B L.S L.R L.D N _ p _ v (by simpa [openState] using hv)
      (by simp [openState])]
    simp [openState, openStatements, chain, optionBlock, gotoPtrs, hN2, hval, hv, hlits, hbase,
      defaultAssign]
  · have hN2 : N - 1 = ys.length + 1 := by simpa using hN.symm
    rw [CompileOption_ok G L.fn L.B L.S L.R L.D N _ p _ v (by simpa [openState] using hv)
      (by simp [openState, openStatements, length_chain, optionBlock, hbase]; omega)]
    simp [openState, openStatements, chain, optionBlock, gotoPtrs, hN2, hval, hv, hlits, hbase,
      chain_append, gotoPtrs_append, length_chain, modify_append_right, modify_append_left,
      Nat.add_assoc, defaultAssign]
    omega

/-- An iteration on a pin without value terminal leaves the aborted layout. -/
theorem CompileOption_abort (G : FEdGraphUtilities) (L : Layout) (C : FKismetFunctionContext)
    (N : Nat) (xs : List UEdGraphPin) (p : UEdGraphPin)
    (hbase : L.base = C.AllGeneratedStatements.length) (hlits : L.lits = C.Literals.length)
    (hval : L.val p = C.NetMap (G.GetNetFromPin p))
    (hv : C.NetMap (G.GetNetFromPin p) = none) :
    CompileOption G L.fn L.B L.S L.R L.D N xs.length p (openState L C xs) =
      .error { C with
          AllGeneratedStatements := C.AllGeneratedStatements ++ abortedStatements L xs p
          Literals := C.Literals ++ (xs ++ [p]).map literalOf
          MessageLog := C.MessageLog ++ [(Error_UnregisterOptionPin, p)] } := by
  rcases List.eq_nil_or_concat xs with rfl | ⟨ys, y, rfl⟩
  · rw [CompileOption_error G L.fn L.B L.S L.R L.D N _ p _ (by simpa [openState] using hv)
      (by simp [openState])]
    simp [openState, openStatements, abortedStatements, chain, optionBlock, hval, hv, hlits]
  · rw [CompileOption_error G L.fn L.B L.S L.R L.D N _ p _ (by simpa [openState] using hv)
      (by simp [openState, openStatements, length_chain, optionBlock, hbase]; omega)]
    simp [openState, openStatements, abortedStatements, chain, optionBlock, hval, hv, hlits,
      hbase, chain_append, length_chain, modify_append_right, modify_append_left,
      Nat.add_assoc]
    omega

theorem openState_nil (L : Layout) (C : FKismetFunctionContext) :
    openState L C [] = { Context := C, PrevIfNotStatement := none, GotoStatementList := [] } := by
  simp [openState, openStatements, chain, gotoPtrs]

/-- The option loop over pins that all resolve, short of the last option. -/
theorem CompileOptions_open (G : FEdGraphUtilities) (L : Layout) (C : FKismetFunctionContext)
    (N : Nat) (hbase : L.base = C.AllGeneratedStatements.length)
    (hlits : L.lits = C.Literals.length)
    (hval : ∀ p, L.val p = C.NetMap (G.GetNetFromPin p)) (xs : List UEdGraphPin) :
    (∀ p ∈ xs, ∃ v, C.NetMap (G.GetNetFromPin p) = some v) → xs.length ≤ N - 1 →
    CompileOptions G L.fn L.B L.S L.R L.D N xs 0 (openState L C []) =
      .ok (openState L C xs) := by
  induction xs using List.reverseRecOn with
  | nil => intro _ _; simp [CompileOptions]
  | append_singleton xs p ih =>
    intro hres hlen
    have hlen2 : xs.length + 1 ≤ N - 1 := by simpa using hlen
    obtain ⟨v, hv⟩ := hres p (by simp)
    rw [CompileOptions_append, ih (fun q hq => hres q (by simp [hq])) (by omega)]
    simp only [CompileOptions, Nat.zero_add]
    rw [CompileOption_open G L C N xs p v hbase hlits (hval p) hv (by omega)]

/-! ## The exit of `Compile` -/

theorem foldl_updateStatement (f : FBlueprintCompiledStatement → FBlueprintCompiledStatement) :
    ∀ (gs : List Nat) (C : FKismetFunctionContext),
      gs.foldl (fun C g => C.updateStatement g f) C =
        { C with AllGeneratedStatements :=
            gs.foldl (fun l g => l.modify f g) C.AllGeneratedStatements }
  | [], C => rfl
  | g :: gs, C => by
    simp only [List.foldl_cons]
    rw [foldl_updateStatement f gs]
    rfl

/-- Retargeting the collected gotos turns the open exits of a chain into the
given target. -/
theorem patch_chain (L : Layout) (t : Nat) :
    ∀ (xs : List UEdGraphPin) (j : Nat) (P T : List FBlueprintCompiledStatement),
      P.length = L.base + 4 * j →
      (gotoPtrs L.base j xs).foldl
          (fun l g => l.modify (fun s => { s with TargetLabel := some t }) g)
          (P ++ (chain L none j xs ++ T)) =
        P ++ (chain L (some t) j xs ++ T)
  | [], j, P, T, _ => by simp [gotoPtrs, chain]
  | p :: rest, j, P, T, hP => by
    have ih := patch_chain L t rest (j + 1)
      (P ++ optionBlock L (some (L.base + 4 * (j + 1))) (some t) j p) T
      (by simp [length_optionBlock, hP]; omega)
    have e : L.base + 4 * j + 3 = P.length + 3 := by omega
    simp only [gotoPtrs, chain, List.foldl_cons, List.append_assoc] at ih ⊢
    rw [← ih]
    congr 1
    rw [e, modify_append_right _ _ _ _ (by omega)]
    simp [optionBlock]

/-- The tail of `Compile` on the state the option loop leaves behind. -/
theorem CompileExit_chain (L : Layout) (C : FKismetFunctionContext)
    (hbase : L.base = C.AllGeneratedStatements.length)
    (xs : List UEdGraphPin) (T : List FBlueprintCompiledStatement) (lits : List FBPTerminal)
    (prev : Option Nat) :
    CompileExit
        { Context := { C with
            AllGeneratedStatements := C.AllGeneratedStatements ++ (chain L none 0 xs ++ T)
            Literals := lits }
          PrevIfNotStatement := prev
          GotoStatementList := gotoPtrs L.base 0 xs } =
      { C with
        AllGeneratedStatements := C.AllGeneratedStatements ++
          (chain L (some (L.base + 4 * xs.length + T.length)) 0 xs ++ T ++ [exitNop])
        Literals := lits } := by
  simp only [CompileExit, FKismetFunctionContext.AppendStatementForNode,
    foldl_updateStatement]
  simp only [FKismetFunctionContext.updateStatement]
  have h1 : (C.AllGeneratedStatements ++ (chain L none 0 xs ++ T) ++ [({} : FBlueprintCompiledStatement)]).modify
      (fun s => { s with Type_ := .KCST_Nop, bIsJumpTarget := true })
      (C.AllGeneratedStatements ++ (chain L none 0 xs ++ T)).length =
      C.AllGeneratedStatements ++ (chain L none 0 xs ++ (T ++ [exitNop])) := by
    rw [modify_append_length]
    simp [exitNop]
  rw [h1]
  have h2 := patch_chain L (C.AllGeneratedStatements ++ (chain L none 0 xs ++ T)).length
    xs 0 C.AllGeneratedStatements (T ++ [exitNop]) (by simp [hbase])
  rw [h2]
  simp [length_chain, hbase, Nat.add_assoc]

/-! ## `Compile` in closed form -/

/-- A missing selector, result or default terminal: `Compile` leaves the
context as it found it. -/
theorem Compile_unresolved (H : FKCHandler_Select) (G : FEdGraphUtilities)
    (C : FKismetFunctionContext) (node : UDialogueK2Node_Select)
    (h : C.NetMap (G.GetNetFromPin node.VariableNamePin) = none ∨
      C.NetMap node.ReturnValuePin = none ∨
      C.NetMap (G.GetNetFromPin node.DefaultValuePin) = none) :
    H.Compile G C node = C := by
  unfold FKCHandler_Select.Compile
  rcases h with h | h | h
  · simp [h]
  · cases h1 : C.NetMap (G.GetNetFromPin node.VariableNamePin) <;> simp [h]
  · cases h1 : C.NetMap (G.GetNetFromPin node.VariableNamePin) <;>
      cases h2 : C.NetMap node.ReturnValuePin <;> simp [h]

/-- The option loop of a lowering whose options all resolve. -/
theorem CompileOptions_lowered (G : FEdGraphUtilities) (L : Layout) (C : FKismetFunctionContext)
    (hbase : L.base = C.AllGeneratedStatements.length)
    (hlits : L.lits = C.Literals.length)
    (hval : ∀ p, L.val p = C.NetMap (G.GetNetFromPin p)) (xs : List UEdGraphPin)
    (p : UEdGraphPin)
    (hres : ∀ q ∈ xs ++ [p], ∃ v, C.NetMap (G.GetNetFromPin q) = some v) :
    CompileOptions G L.fn L.B L.S L.R L.D (xs ++ [p]).length (xs ++ [p]) 0
        { Context := C, PrevIfNotStatement := none, GotoStatementList := [] } =
      .ok { Context := { C with
              AllGeneratedStatements := C.AllGeneratedStatements ++
                (chain L none 0 (xs ++ [p]) ++ [defaultAssign L])
              Literals := C.Literals ++ (xs ++ [p]).map literalOf }
            PrevIfNotStatement := some (L.base + 4 * xs.length + 1)
            GotoStatementList := gotoPtrs L.base 0 (xs ++ [p]) } := by
  obtain ⟨v, hv⟩ := hres p (by simp)
  rw [← openState_nil L C, CompileOptions_append,
    CompileOptions_open G L C _ hbase hlits hval xs (fun q hq => hres q (by simp [hq]))
      (by simp)]
  simp only [CompileOptions, Nat.zero_add]
  rw [CompileOption_last G L C _ xs p v hbase hlits (hval p) hv (by simp)]

/-- A lowering whose operands all resolve leaves the lowered layout and one
literal per option. -/
theorem Compile_lowered (H : FKCHandler_Select) (G : FEdGraphUtilities)
    (C : FKismetFunctionContext) (node : UDialogueK2Node_Select) (S R D : TermRef)
    (hS : C.NetMap (G.GetNetFromPin node.VariableNamePin) = some S)
    (hR : C.NetMap node.ReturnValuePin = some R)
    (hD : C.NetMap (G.GetNetFromPin node.DefaultValuePin) = some D)
    (hres : ∀ q ∈ node.OptionPins, ∃ v, C.NetMap (G.GetNetFromPin q) = some v) :
    H.Compile G C node =
      { C with
        AllGeneratedStatements := C.AllGeneratedStatements ++
          loweredStatements (layoutOf H G C node S R D) node.OptionPins
        Literals := C.Literals ++ node.OptionPins.map literalOf } := by
  unfold FKCHandler_Select.Compile
  simp only [hS, hR, hD]
  rcases List.eq_nil_or_concat node.OptionPins with h0 | ⟨xs, p, hxs⟩
  · rw [h0]
    have := CompileExit_chain (layoutOf H G C node S R D) C rfl [] [] C.Literals none
    simp only [gotoPtrs, chain, List.append_nil, List.nil_append] at this
    simp [CompileOptions, loweredStatements, chain, this]
  · rw [List.concat_eq_append] at hxs
    rw [hxs] at hres ⊢
    have h1 := CompileOptions_lowered G (layoutOf H G C node S R D) C rfl rfl (fun _ => rfl)
      xs p hres
    simp only [layoutOf] at h1
    simp only [h1]
    have h2 := CompileExit_chain (layoutOf H G C node S R D) C rfl (xs ++ [p])
      [defaultAssign (layoutOf H G C node S R D)] (C.Literals ++ (xs ++ [p]).map literalOf)
      (some ((layoutOf H G C node S R D).base + 4 * xs.length + 1))
    simp only [layoutOf] at h2
    simp only [h2]
    simp [loweredStatements, layoutOf]

/-- A lowering that meets an option without value terminal, after options that
all resolve, leaves the aborted layout, a literal for each option it reached
and one error on the pin of that option. -/
theorem Compile_aborted (H : FKCHandler_Select) (G : FEdGraphUtilities)
    (C : FKismetFunctionContext) (node : UDialogueK2Node_Select) (S R D : TermRef)
    (xs ys : List UEdGraphPin) (p : UEdGraphPin)
    (hS : C.NetMap (G.GetNetFromPin node.VariableNamePin) = some S)
    (hR : C.NetMap node.ReturnValuePin = some R)
    (hD : C.NetMap (G.GetNetFromPin node.DefaultValuePin) = some D)
    (hopts : node.OptionPins = xs ++ p :: ys)
    (hres : ∀ q ∈ xs, ∃ v, C.NetMap (G.GetNetFromPin q) = some v)
    (hp : C.NetMap (G.GetNetFromPin p) = none) :
    H.Compile G C node =
      { C with
        AllGeneratedStatements := C.AllGeneratedStatements ++
          abortedStatements (layoutOf H G C node S R D) xs p
        Literals := C.Literals ++ (xs ++ [p]).map literalOf
        MessageLog := C.MessageLog ++ [(Error_UnregisterOptionPin, p)] } := by
  unfold FKCHandler_Select.Compile
  simp only [hS, hR, hD, hopts]
  have h1 := CompileOptions_open G (layoutOf H G C node S R D) C (xs ++ p :: ys).length
    rfl rfl (fun _ => rfl) xs hres (by simp)
  have h2 := CompileOption_abort G (layoutOf H G C node S R D) C (xs ++ p :: ys).length xs p
    rfl rfl rfl hp
  rw [openState_nil] at h1
  simp only [layoutOf] at h1 h2
  rw [CompileOptions_append]
  simp only [h1, CompileOptions, Nat.zero_add, h2]
  simp [layoutOf]

/-! ## Shape of a successful lowering -/

theorem emitted_eq_of_append (H : FKCHandler_Select) (G : FEdGraphUtilities)
    (C : FKismetFunctionContext) (node : UDialogueK2Node_Select)
    (E : List FBlueprintCompiledStatement)
    (h : (H.Compile G C node).AllGeneratedStatements = C.AllGeneratedStatements ++ E) :
    emitted H G C node = E := by
  simp [emitted, h]

theorem resolves_iff (C : FKismetFunctionContext) (G : FEdGraphUtilities)
    (xs : List UEdGraphPin) :
    (∀ q ∈ xs, (C.NetMap (G.GetNetFromPin q)).isSome = true) ↔
      ∀ q ∈ xs, ∃ v, C.NetMap (G.GetNetFromPin q) = some v := by
  simp [Option.isSome_iff_exists]

theorem emitted_lowered (H : FKCHandler_Select) (G : FEdGraphUtilities)
    (C : FKismetFunctionContext) (node : UDialogueK2Node_Select) (S R D : TermRef)
    (hS : C.NetMap (G.GetNetFromPin node.VariableNamePin) = some S)
    (hR : C.NetMap node.ReturnValuePin = some R)
    (hD : C.NetMap (G.GetNetFromPin node.DefaultValuePin) = some D)
    (hres : ∀ q ∈ node.OptionPins, (C.NetMap (G.GetNetFromPin q)).isSome = true) :
    emitted H G C node = loweredStatements (layoutOf H G C node S R D) node.OptionPins := by
  apply emitted_eq_of_append
  rw [Compile_lowered H G C node S R D hS hR hD ((resolves_iff C G _).1 hres)]

theorem length_loweredStatements (L : Layout) (xs : List UEdGraphPin) (h : xs ≠ []) :
    (loweredStatements L xs).length = 4 * xs.length + 2 := by
  simp [loweredStatements, length_chain, h]

theorem map_type_chain (L : Layout) (exit : Option Nat) :
    ∀ (xs : List UEdGraphPin) (j : Nat),
      (chain L exit j xs).map (fun s => s.Type_) =
        (List.replicate xs.length
          [EKismetCompiledStatementType.KCST_CallFunction, .KCST_GotoIfNot, .KCST_Assignment,
            .KCST_UnconditionalGoto]).flatten
  | [], _ => rfl
  | p :: rest, j => by
    simp [chain, optionBlock, List.replicate_succ, map_type_chain L exit rest (j + 1)]

/-- C5. A node with `n ≥ 1` options that lowers successfully gets exactly
`4n + 2` statements appended, of the kinds CallFunction, GotoIfNot,
Assignment, UnconditionalGoto for each option in turn, then the default
Assignment and the Nop. -/
theorem statement_count (H : FKCHandler_Select) (G : FEdGraphUtilities)
    (C : FKismetFunctionContext) (node : UDialogueK2Node_Select) (S R D : TermRef)
    (hS : C.NetMap (G.GetNetFromPin node.VariableNamePin) = some S)
    (hR : C.NetMap node.ReturnValuePin = some R)
    (hD : C.NetMap (G.GetNetFromPin node.DefaultValuePin) = some D)
    (hres : ∀ q ∈ node.OptionPins, (C.NetMap (G.GetNetFromPin q)).isSome = true)
    (hn : 1 ≤ node.OptionPins.length) :
    (H.Compile G C node).AllGeneratedStatements =
        C.AllGeneratedStatements ++ emitted H G C node ∧
      (emitted H G C node).length = 4 * node.OptionPins.length + 2 ∧
      (emitted H G C node).map (fun s => s.Type_) =
        (List.replicate node.OptionPins.length
          [EKismetCompiledStatementType.KCST_CallFunction, .KCST_GotoIfNot, .KCST_Assignment,
            .KCST_UnconditionalGoto]).flatten ++ [.KCST_Assignment, .KCST_Nop] := by
  have hne : node.OptionPins ≠ [] := by
    intro h0; rw [h0] at hn; simp at hn
  rw [emitted_lowered H G C node S R D hS hR hD hres]
  refine ⟨?_, length_loweredStatements _ _ hne, ?_⟩
  · rw [Compile_lowered H G C node S R D hS hR hD ((resolves_iff C G _).1 hres)]
  · simp [loweredStatements, hne, map_type_chain, defaultAssign, exitNop]

/-- Witness of C5 on the sample node with two options. -/
theorem statement_count_witness :
    (emitted sampleHandler sampleGraph sampleContext
        (sampleNode [samplePin 10 "A", samplePin 11 "A"])).length = 4 * 2 + 2 :=
  (statement_count sampleHandler sampleGraph sampleContext
    (sampleNode [samplePin 10 "A", samplePin 11 "A"]) (.loc 0) (.loc 2) (.loc 1)
    (by decide) (by decide) (by decide) (by decide) (by decide)).2.1

/-! ## Jump targets of a successful lowering -/

/-- Kinds and targets of the statements of a chain whose exits are set. -/
theorem mem_chain (L : Layout) (e : Nat) :
    ∀ (xs : List UEdGraphPin) (j : Nat) (s : FBlueprintCompiledStatement),
      s ∈ chain L (some e) j xs →
        s.Type_ ≠ .KCST_Nop ∧
        (s.Type_ = .KCST_UnconditionalGoto → s.TargetLabel = some e) ∧
        ((s.Type_ = .KCST_GotoIfNot ∨ s.Type_ = .KCST_UnconditionalGoto) →
          s.TargetLabel.isSome = true) ∧
        ∀ t, s.TargetLabel = some t →
          t = e ∨ ∃ i, j ≤ i ∧ i < j + xs.length ∧ t = L.base + 4 * (i + 1)
  | [], _, s, h => by simp [chain] at h
  | p :: rest, j, s, h => by
    simp only [chain, List.mem_append] at h
    rcases h with h | h
    · simp only [optionBlock, List.mem_cons, List.mem_singleton, List.not_mem_nil,
        or_false] at h
      rcases h with rfl | rfl | rfl | rfl <;> simp
    · obtain ⟨h1, h2, h3, h4⟩ := mem_chain L e rest (j + 1) s h
      refine ⟨h1, h2, h3, fun t ht => ?_⟩
      rcases h4 t ht with h5 | ⟨i, hi1, hi2, hi3⟩
      · exact Or.inl h5
      · exact Or.inr ⟨i, by omega, by simp; omega, hi3⟩

/-- C3. After a successful lowering of any number of options, every GotoIfNot
and every UnconditionalGoto among the emitted statements has its target set,
and every target that is set is the position of a statement of the emitted
list. -/
theorem no_dangling_targets (H : FKCHandler_Select) (G : FEdGraphUtilities)
    (C : FKismetFunctionContext) (node : UDialogueK2Node_Select) (S R D : TermRef)
    (hS : C.NetMap (G.GetNetFromPin node.VariableNamePin) = some S)
    (hR : C.NetMap node.ReturnValuePin = some R)
    (hD : C.NetMap (G.GetNetFromPin node.DefaultValuePin) = some D)
    (hres : ∀ q ∈ node.OptionPins, (C.NetMap (G.GetNetFromPin q)).isSome = true) :
    ∀ s ∈ emitted H G C node,
      ((s.Type_ = .KCST_GotoIfNot ∨ s.Type_ = .KCST_UnconditionalGoto) →
        s.TargetLabel.isSome = true) ∧
      ∀ t, s.TargetLabel = some t →
        ∃ k s2, t = C.AllGeneratedStatements.length + k ∧
          (emitted H G C node)[k]? = some s2 ∧
          (H.Compile G C node).AllGeneratedStatements[t]? = some s2 := by
  have hE := emitted_lowered H G C node S R D hS hR hD hres
  have hC := Compile_lowered H G C node S R D hS hR hD ((resolves_iff C G _).1 hres)
  intro s hs
  -- every target lies inside the emitted block
  have key : ((s.Type_ = .KCST_GotoIfNot ∨ s.Type_ = .KCST_UnconditionalGoto) →
        s.TargetLabel.isSome = true) ∧
      ∀ t, s.TargetLabel = some t →
        ∃ k, t = C.AllGeneratedStatements.length + k ∧ k < (emitted H G C node).length := by
    rw [hE] at hs ⊢
    by_cases hne : node.OptionPins = []
    · simp [loweredStatements, hne, chain, exitNop] at hs
      subst hs
      simp
    · rw [length_loweredStatements _ _ hne]
      simp only [loweredStatements, hne, if_false, List.mem_append, List.mem_singleton] at hs
      rcases hs with (hs | hs) | hs
      · obtain ⟨_, _, h3, h4⟩ := mem_chain _ _ _ _ _ hs
        refine ⟨h3, fun t ht => ?_⟩
        rcases h4 t ht with h5 | ⟨i, _, hi2, hi3⟩
        · exact ⟨4 * node.OptionPins.length + 1, by simp [h5, layoutOf]; omega, by omega⟩
        · exact ⟨4 * (i + 1), by simp [hi3, layoutOf], by omega⟩
      · subst hs; simp [defaultAssign]
      · subst hs; simp [exitNop]
  refine ⟨key.1, fun t ht => ?_⟩
  obtain ⟨k, hk1, hk2⟩ := key.2 t ht
  refine ⟨k, (emitted H G C node)[k], hk1, List.getElem?_eq_getElem hk2, ?_⟩
  have hC2 : (H.Compile G C node).AllGeneratedStatements =
      C.AllGeneratedStatements ++ emitted H G C node := by rw [hC, hE]
  rw [hC2, hk1, List.getElem?_append_right (by omega)]
  simp [List.getElem?_eq_getElem hk2]

/-- Witness of C3 on the sample node with two options: the first GotoIfNot
has its target set, and its target 4 is the position of an emitted
statement. -/
theorem no_dangling_targets_witness :
    ∃ k s2, 4 = sampleContext.AllGeneratedStatements.length + k ∧
      (emitted sampleHandler sampleGraph sampleContext
        (sampleNode [samplePin 10 "A", samplePin 11 "A"]))[k]? = some s2 ∧
      (sampleHandler.Compile sampleGraph sampleContext
        (sampleNode [samplePin 10 "A", samplePin 11 "A"])).AllGeneratedStatements[4]?
          = some s2 :=
  (no_dangling_targets sampleHandler sampleGraph sampleContext
    (sampleNode [samplePin 10 "A", samplePin 11 "A"]) (.loc 0) (.loc 2) (.loc 1)
    (by decide) (by decide) (by decide) (by decide)
    { Type_ := .KCST_GotoIfNot, LHS := some (.loc 3), TargetLabel := some 4 }
    (by decide)).2 4 rfl

/-! ## The single exit -/

theorem filter_nop_chain (L : Layout) (exit : Option Nat) :
    ∀ (xs : List UEdGraphPin) (j : Nat),
      (chain L exit j xs).filter (fun s => decide (s.Type_ = .KCST_Nop)) = []
  | [], _ => rfl
  | p :: rest, j => by
    simp [chain, optionBlock, filter_nop_chain L exit rest (j + 1)]

theorem filter_goto_chain (L : Layout) (exit : Option Nat) :
    ∀ (xs : List UEdGraphPin) (j : Nat),
      ((chain L exit j xs).filter
        (fun s => decide (s.Type_ = .KCST_UnconditionalGoto))).length = xs.length
  | [], _ => rfl
  | p :: rest, j => by
    simp [chain, optionBlock, filter_goto_chain L exit rest (j + 1)]

/-- C4. After a successful lowering of `n ≥ 1` options the emitted statements
hold exactly one Nop, which is the last statement and is marked as a jump
target; there are `n` UnconditionalGoto statements and each targets that Nop;
and the default assignment of the default terminal to the result terminal
stands right before the Nop. -/
theorem exit_convergence (H : FKCHandler_Select) (G : FEdGraphUtilities)
    (C : FKismetFunctionContext) (node : UDialogueK2Node_Select) (S R D : TermRef)
    (hS : C.NetMap (G.GetNetFromPin node.VariableNamePin) = some S)
    (hR : C.NetMap node.ReturnValuePin = some R)
    (hD : C.NetMap (G.GetNetFromPin node.DefaultValuePin) = some D)
    (hres : ∀ q ∈ node.OptionPins, (C.NetMap (G.GetNetFromPin q)).isSome = true)
    (hn : 1 ≤ node.OptionPins.length) :
    ((emitted H G C node).filter (fun s => decide (s.Type_ = .KCST_Nop))).length = 1 ∧
      (emitted H G C node).length = 4 * node.OptionPins.length + 2 ∧
      (emitted H G C node)[4 * node.OptionPins.length + 1]? =
        some { Type_ := .KCST_Nop, bIsJumpTarget := true } ∧
      (H.Compile G C node).AllGeneratedStatements[
          C.AllGeneratedStatements.length + (4 * node.OptionPins.length + 1)]? =
        some { Type_ := .KCST_Nop, bIsJumpTarget := true } ∧
      ((emitted H G C node).filter
        (fun s => decide (s.Type_ = .KCST_UnconditionalGoto))).length =
          node.OptionPins.length ∧
      (∀ s ∈ emitted H G C node, s.Type_ = .KCST_UnconditionalGoto →
        s.TargetLabel =
          some (C.AllGeneratedStatements.length + (4 * node.OptionPins.length + 1))) ∧
      (emitted H G C node)[4 * node.OptionPins.length]? =
        some { Type_ := .KCST_Assignment, bIsJumpTarget := true, LHS := some R, RHS := [D] } := by
  have hne : node.OptionPins ≠ [] := by
    intro h0; rw [h0] at hn; simp at hn
  have hE := emitted_lowered H G C node S R D hS hR hD hres
  have hC := Compile_lowered H G C node S R D hS hR hD ((resolves_iff C G _).1 hres)
  have hlen := length_chain (layoutOf H G C node S R D)
    (some ((layoutOf H G C node S R D).base + 4 * node.OptionPins.length + 1)) node.OptionPins 0
  have hnop : (loweredStatements (layoutOf H G C node S R D) node.OptionPins)[
      4 * node.OptionPins.length + 1]? = some exitNop := by
    simp only [loweredStatements, hne, if_false]
    rw [List.getElem?_append_right (by simp [hlen])]
    simp [hlen]
  refine ⟨?_, ?_, ?_, ?_, ?_, ?_, ?_⟩
  · rw [hE]
    simp [loweredStatements, hne, filter_nop_chain, defaultAssign, exitNop]
  · rw [hE]; exact length_loweredStatements _ _ hne
  · rw [hE, hnop]; rfl
  · rw [hC]
    simp only []
    rw [List.getElem?_append_right (by omega)]
    simp only [Nat.add_sub_cancel_left]
    rw [hnop]; rfl
  · rw [hE]
    simp [loweredStatements, hne, filter_goto_chain, defaultAssign, exitNop]
  · rw [hE]
    intro s hs hty
    simp only [loweredStatements, hne, if_false, List.mem_append, List.mem_singleton] at hs
    rcases hs with (hs | hs) | hs
    · have := (mem_chain _ _ _ _ _ hs).2.1 hty
      simpa [layoutOf, Nat.add_assoc] using this
    · subst hs; simp [defaultAssign] at hty
    · subst hs; simp [exitNop] at hty
  · rw [hE]
    simp only [loweredStatements, hne, if_false, List.append_assoc]
    rw [List.getElem?_append_right (by simp [hlen])]
    simp only [hlen, Nat.sub_self]
    simp [defaultAssign, layoutOf]

/-- Witness of C4 on the sample node with two options. -/
theorem exit_convergence_witness :
    (emitted sampleHandler sampleGraph sampleContext
        (sampleNode [samplePin 10 "A", samplePin 11 "A"]))[4 * 2 + 1]? =
      some { Type_ := .KCST_Nop, bIsJumpTarget := true } :=
  (exit_convergence sampleHandler sampleGraph sampleContext
    (sampleNode [samplePin 10 "A", samplePin 11 "A"]) (.loc 0) (.loc 2) (.loc 1)
    (by decide) (by decide) (by decide) (by decide) (by decide)).2.2.1

/-! ## Zero options -/

/-- C6. On the sample node with no option, whose selector, default and result
terminals resolve, `Compile` emits the final Nop alone: there is no assignment
of the default terminal to the result terminal, and running the output leaves
the result terminal (local 2) at its old value 0 instead of the default 99. -/
theorem zero_options_only_nop :
    sampleContext.NetMap (sampleGraph.GetNetFromPin (sampleNode []).VariableNamePin)
        = some (.loc 0) ∧
      sampleContext.NetMap (sampleNode []).ReturnValuePin = some (.loc 2) ∧
      sampleContext.NetMap (sampleGraph.GetNetFromPin (sampleNode []).DefaultValuePin)
        = some (.loc 1) ∧
      emitted sampleHandler sampleGraph sampleContext (sampleNode []) =
        [{ Type_ := .KCST_Nop, bIsJumpTarget := true }] ∧
      (runEmitted sampleHandler sampleGraph sampleContext (sampleNode []) 10
        (sampleEnv "A" 99 1 2)).map (fun env => (env (.loc 2), env (.loc 1))) =
          some (.num 0, .num 99) := by
  decide

/-! ## Failures -/

theorem split_at_index {α : Type} (xs : List α) (i : Nat) (p : α) (h : xs[i]? = some p) :
    xs = xs.take i ++ p :: xs.drop (i + 1) := by
  obtain ⟨hi, rfl⟩ := List.getElem?_eq_some.1 h
  rw [← List.drop_eq_getElem_cons hi, List.take_append_drop]

theorem length_abortedStatements (L : Layout) (xs : List UEdGraphPin) (p : UEdGraphPin) :
    (abortedStatements L xs p).length = 4 * xs.length + 3 := by
  simp [abortedStatements, length_chain, optionBlock]

theorem mem_chain_kind (L : Layout) (exit : Option Nat) :
    ∀ (xs : List UEdGraphPin) (j : Nat) (s : FBlueprintCompiledStatement),
      s ∈ chain L exit j xs →
        s.Type_ ≠ .KCST_Nop ∧ (s.Type_ = .KCST_Assignment → s.bIsJumpTarget = false)
  | [], _, s, h => by simp [chain] at h
  | p :: rest, j, s, h => by
    simp only [chain, List.mem_append] at h
    rcases h with h | h
    · simp only [optionBlock, List.mem_cons, List.mem_singleton, List.not_mem_nil,
        or_false] at h
      rcases h with rfl | rfl | rfl | rfl <;> simp
    · exact mem_chain_kind L exit rest (j + 1) s h

/-- Closed form of a lowering that stops at option `i`, the first one without
value terminal. -/
theorem Compile_aborted_at (H : FKCHandler_Select) (G : FEdGraphUtilities)
    (C : FKismetFunctionContext) (node : UDialogueK2Node_Select) (S R D : TermRef)
    (i : Nat) (p : UEdGraphPin)
    (hS : C.NetMap (G.GetNetFromPin node.VariableNamePin) = some S)
    (hR : C.NetMap node.ReturnValuePin = some R)
    (hD : C.NetMap (G.GetNetFromPin node.DefaultValuePin) = some D)
    (hp : node.OptionPins[i]? = some p)
    (hnone : C.NetMap (G.GetNetFromPin p) = none)
    (hleast : ∀ j q, j < i → node.OptionPins[j]? = some q →
      (C.NetMap (G.GetNetFromPin q)).isSome = true) :
    H.Compile G C node =
      { C with
        AllGeneratedStatements := C.AllGeneratedStatements ++
          abortedStatements (layoutOf H G C node S R D) (node.OptionPins.take i) p
        Literals := C.Literals ++ (node.OptionPins.take i ++ [p]).map literalOf
        MessageLog := C.MessageLog ++ [(Error_UnregisterOptionPin, p)] } := by
  apply Compile_aborted H G C node S R D (node.OptionPins.take i)
    (node.OptionPins.drop (i + 1)) p hS hR hD (split_at_index _ i p hp) _ hnone
  intro q hq
  obtain ⟨j, hj⟩ := List.mem_iff_getElem?.1 hq
  rw [List.getElem?_take] at hj
  by_cases hji : j < i
  · rw [if_pos hji] at hj
    exact Option.isSome_iff_exists.1 (hleast j q hji hj)
  · rw [if_neg hji] at hj
    cases hj

/-- C7. When the selector, default and result terminals resolve and option `i`
is the first whose value pin is missing from the pin to terminal map,
`Compile` reports exactly one error, on the pin of option `i`, and stops
there: it has appended the four statements of each earlier option and the
CallFunction, GotoIfNot and Assignment of option `i`, and nothing else, so no
statement of a later option, no default assignment (no Assignment is marked
as a jump target) and no Nop. -/
theorem unregistered_option_pin (H : FKCHandler_Select) (G : FEdGraphUtilities)
    (C : FKismetFunctionContext) (node : UDialogueK2Node_Select) (S R D : TermRef)
    (i : Nat) (p : UEdGraphPin)
    (hS : C.NetMap (G.GetNetFromPin node.VariableNamePin) = some S)
    (hR : C.NetMap node.ReturnValuePin = some R)
    (hD : C.NetMap (G.GetNetFromPin node.DefaultValuePin) = some D)
    (hp : node.OptionPins[i]? = some p)
    (hnone : C.NetMap (G.GetNetFromPin p) = none)
    (hleast : ∀ j q, j < i → node.OptionPins[j]? = some q →
      (C.NetMap (G.GetNetFromPin q)).isSome = true) :
    (H.Compile G C node).MessageLog = C.MessageLog ++ [(Error_UnregisterOptionPin, p)] ∧
      (H.Compile G C node).AllGeneratedStatements =
        C.AllGeneratedStatements ++ emitted H G C node ∧
      (emitted H G C node).length = 4 * i + 3 ∧
      (emitted H G C node).map (fun s => s.Type_) =
        (List.replicate i
          [EKismetCompiledStatementType.KCST_CallFunction, .KCST_GotoIfNot, .KCST_Assignment,
            .KCST_UnconditionalGoto]).flatten ++
          [.KCST_CallFunction, .KCST_GotoIfNot, .KCST_Assignment] ∧
      (∀ s ∈ emitted H G C node, s.Type_ = .KCST_Assignment → s.bIsJumpTarget = false) ∧
      (∀ s ∈ emitted H G C node, s.Type_ ≠ .KCST_Nop) := by
  have hC := Compile_aborted_at H G C node S R D i p hS hR hD hp hnone hleast
  have hi : i < node.OptionPins.length := (List.getElem?_eq_some.1 hp).1
  have hlen : (node.OptionPins.take i).length = i := by
    rw [List.length_take]; omega
  have hE : emitted H G C node =
      abortedStatements (layoutOf H G C node S R D) (node.OptionPins.take i) p :=
    emitted_eq_of_append H G C node _ (by rw [hC])
  have hmap : (emitted H G C node).map (fun s => s.Type_) =
      (List.replicate i
        [EKismetCompiledStatementType.KCST_CallFunction, .KCST_GotoIfNot, .KCST_Assignment,
          .KCST_UnconditionalGoto]).flatten ++
        [.KCST_CallFunction, .KCST_GotoIfNot, .KCST_Assignment] := by
    rw [hE]
    simp [abortedStatements, map_type_chain, optionBlock, hlen]
  refine ⟨by rw [hC], by rw [hC, hE], ?_, hmap, ?_, ?_⟩
  · rw [hE, length_abortedStatements, hlen]
  · intro s hs hty
    rw [hE] at hs
    simp only [abortedStatements, List.mem_append] at hs
    rcases hs with hs | hs
    · exact (mem_chain_kind _ _ _ _ _ hs).2 hty
    · simp only [optionBlock, List.take, List.mem_cons, List.mem_singleton,
        List.not_mem_nil, or_false] at hs
      rcases hs with rfl | rfl | rfl <;> simp at hty ⊢
  · intro s hs
    rw [hE] at hs
    simp only [abortedStatements, List.mem_append] at hs
    rcases hs with hs | hs
    · exact (mem_chain_kind _ _ _ _ _ hs).1
    · simp only [optionBlock, List.take, List.mem_cons, List.mem_singleton,
        List.not_mem_nil, or_false] at hs
      rcases hs with rfl | rfl | rfl <;> simp

/-- C9. When the selector terminal, the result terminal or the default
terminal is missing from the pin to terminal map, `Compile` returns with the
statements, both terminal pools and the message log as they were: it has
appended no statement, created no terminal and reported no diagnostic. -/
theorem unresolved_operand (H : FKCHandler_Select) (G : FEdGraphUtilities)
    (C : FKismetFunctionContext) (node : UDialogueK2Node_Select)
    (h : C.NetMap (G.GetNetFromPin node.VariableNamePin) = none ∨
      C.NetMap node.ReturnValuePin = none ∨
      C.NetMap (G.GetNetFromPin node.DefaultValuePin) = none) :
    (H.Compile G C node).AllGeneratedStatements = C.AllGeneratedStatements ∧
      emitted H G C node = [] ∧
      (H.Compile G C node).Literals = C.Literals ∧
      (H.Compile G C node).Locals = C.Locals ∧
      (H.Compile G C node).MessageLog = C.MessageLog := by
  have hC := Compile_unresolved H G C node h
  refine ⟨by rw [hC], ?_, by rw [hC], by rw [hC], by rw [hC]⟩
  simp [emitted, hC]

/-- Witness of C7 on the sample node with options `A`, `X`, `A`, where the pin
of `X` (pin 30) is not registered. -/
theorem unregistered_option_pin_witness :
    (sampleHandler.Compile sampleGraph sampleContext
        (sampleNode [samplePin 10 "A", samplePin 30 "X", samplePin 11 "A"])).MessageLog =
        sampleContext.MessageLog ++ [(Error_UnregisterOptionPin, samplePin 30 "X")] ∧
      (emitted sampleHandler sampleGraph sampleContext
        (sampleNode [samplePin 10 "A", samplePin 30 "X", samplePin 11 "A"])).length =
          4 * 1 + 3 := by
  have h := unregistered_option_pin sampleHandler sampleGraph sampleContext
    (sampleNode [samplePin 10 "A", samplePin 30 "X", samplePin 11 "A"])
    (.loc 0) (.loc 2) (.loc 1) 1 (samplePin 30 "X")
    (by decide) (by decide) (by decide) (by decide) (by decide)
    (by
      intro j q hj hq
      have hj0 : j = 0 := by omega
      subst hj0
      have hq2 : q = samplePin 10 "A" := by
        simpa [sampleNode] using hq.symm
      subst hq2
      decide)
  exact ⟨h.1, h.2.2.1⟩

/-- Witness of C9 on the sample node in a context without result terminal. -/
theorem unresolved_operand_witness :
    (sampleHandler.Compile sampleGraph sampleContextNoResult
        (sampleNode [samplePin 10 "A"])).AllGeneratedStatements =
        sampleContextNoResult.AllGeneratedStatements ∧
      emitted sampleHandler sampleGraph sampleContextNoResult (sampleNode [samplePin 10 "A"])
        = [] ∧
      (sampleHandler.Compile sampleGraph sampleContextNoResult
        (sampleNode [samplePin 10 "A"])).Literals = sampleContextNoResult.Literals ∧
      (sampleHandler.Compile sampleGraph sampleContextNoResult
        (sampleNode [samplePin 10 "A"])).Locals = sampleContextNoResult.Locals ∧
      (sampleHandler.Compile sampleGraph sampleContextNoResult
        (sampleNode [samplePin 10 "A"])).MessageLog = sampleContextNoResult.MessageLog :=
  unresolved_operand sampleHandler sampleGraph sampleContextNoResult
    (sampleNode [samplePin 10 "A"]) (Or.inr (Or.inl (by decide)))

/-- C8, as stated, fails: on the sample node whose single option `X` has no
value terminal, `Compile` fails with an error and yet leaves three statements
behind in the statement list. -/
theorem failure_leaves_statements :
    sampleContext.NetMap (sampleGraph.GetNetFromPin (samplePin 30 "X")) = none ∧
      (sampleHandler.Compile sampleGraph sampleContext
        (sampleNode [samplePin 30 "X"])).MessageLog =
          [(Error_UnregisterOptionPin, samplePin 30 "X")] ∧
      (sampleHandler.Compile sampleGraph sampleContext
        (sampleNode [samplePin 30 "X"])).AllGeneratedStatements ≠
          sampleContext.AllGeneratedStatements ∧
      ((sampleHandler.Compile sampleGraph sampleContext
        (sampleNode [samplePin 30 "X"])).AllGeneratedStatements.map (fun s => s.Type_)) =
          [.KCST_CallFunction, .KCST_GotoIfNot, .KCST_Assignment] := by
  decide

/-- C8, amended. A failure on a missing selector, result or default terminal
leaves the statement list as it was. A failure on option `i`, the first
without value terminal, keeps the statements that were there before the call
and leaves the `4i + 3` statements emitted up to the failure appended after
them: four per earlier option, then the CallFunction, GotoIfNot and Assignment
of option `i`. -/
theorem failure_statements (H : FKCHandler_Select) (G : FEdGraphUtilities)
    (C : FKismetFunctionContext) (node : UDialogueK2Node_Select) :
    ((C.NetMap (G.GetNetFromPin node.VariableNamePin) = none ∨
        C.NetMap node.ReturnValuePin = none ∨
        C.NetMap (G.GetNetFromPin node.DefaultValuePin) = none) →
      (H.Compile G C node).AllGeneratedStatements = C.AllGeneratedStatements) ∧
    (∀ (i : Nat) (p : UEdGraphPin),
      (C.NetMap (G.GetNetFromPin node.VariableNamePin)).isSome = true →
      (C.NetMap node.ReturnValuePin).isSome = true →
      (C.NetMap (G.GetNetFromPin node.DefaultValuePin)).isSome = true →
      node.OptionPins[i]? = some p →
      C.NetMap (G.GetNetFromPin p) = none →
      (∀ j q, j < i → node.OptionPins[j]? = some q →
        (C.NetMap (G.GetNetFromPin q)).isSome = true) →
      (H.Compile G C node).AllGeneratedStatements =
          C.AllGeneratedStatements ++ emitted H G C node ∧
        (emitted H G C node).length = 4 * i + 3 ∧
        (emitted H G C node).map (fun s => s.Type_) =
          (List.replicate i
            [EKismetCompiledStatementType.KCST_CallFunction, .KCST_GotoIfNot, .KCST_Assignment,
              .KCST_UnconditionalGoto]).flatten ++
            [.KCST_CallFunction, .KCST_GotoIfNot, .KCST_Assignment]) := by
  refine ⟨fun h => by rw [Compile_unresolved H G C node h], ?_⟩
  intro i p hS hR hD hp hnone hleast
  obtain ⟨S, hS⟩ := Option.isSome_iff_exists.1 hS
  obtain ⟨R, hR⟩ := Option.isSome_iff_exists.1 hR
  obtain ⟨D, hD⟩ := Option.isSome_iff_exists.1 hD
  have hC := Compile_aborted_at H G C node S R D i p hS hR hD hp hnone hleast
  have hi : i < node.OptionPins.length := (List.getElem?_eq_some.1 hp).1
  have hlen : (node.OptionPins.take i).length = i := by
    rw [List.length_take]; omega
  have hE : emitted H G C node =
      abortedStatements (layoutOf H G C node S R D) (node.OptionPins.take i) p :=
    emitted_eq_of_append H G C node _ (by rw [hC])
  refine ⟨by rw [hC, hE], by rw [hE, length_abortedStatements, hlen], ?_⟩
  rw [hE]
  simp [abortedStatements, map_type_chain, optionBlock, hlen]

/-- Witness of the amended C8: the sample node without result terminal, and
the sample node whose single option has no value terminal. -/
theorem failure_statements_witness :
    (sampleHandler.Compile sampleGraph sampleContextNoResult
        (sampleNode [samplePin 10 "A"])).AllGeneratedStatements =
        sampleContextNoResult.AllGeneratedStatements ∧
      (emitted sampleHandler sampleGraph sampleContext (sampleNode [samplePin 30 "X"])).length =
        4 * 0 + 3 :=
  ⟨(failure_statements sampleHandler sampleGraph sampleContextNoResult
      (sampleNode [samplePin 10 "A"])).1 (Or.inr (Or.inl (by decide))),
    ((failure_statements sampleHandler sampleGraph sampleContext
      (sampleNode [samplePin 30 "X"])).2 0 (samplePin 30 "X")
      (by decide) (by decide) (by decide) (by decide) (by decide)
      (fun j _ hj => absurd hj (Nat.not_lt_zero j))).2.1⟩

/-! ## Execution of the lowered statements -/

theorem run_halt (stmts : List FBlueprintCompiledStatement) (Lits : List FBPTerminal)
    (fuel : Nat) (env : Env) : run stmts Lits fuel stmts.length env = some env := by
  unfold run
  simp

theorem run_step (stmts : List FBlueprintCompiledStatement) (Lits : List FBPTerminal)
    (fuel pc pc2 : Nat) (env env2 : Env) (s : FBlueprintCompiledStatement)
    (hs : stmts[pc]? = some s) (he : execStatement Lits s pc env = some (pc2, env2)) :
    run stmts Lits (fuel + 1) pc env = run stmts Lits fuel pc2 env2 := by
  have hlt : pc < stmts.length := (List.getElem?_eq_some.1 hs).1
  rw [run]
  simp [Nat.ne_of_lt hlt, hs, he]

/-- More fuel does not change a result. -/
theorem run_mono (stmts : List FBlueprintCompiledStatement) (Lits : List FBPTerminal) :
    ∀ (fuel k pc : Nat) (env env2 : Env),
      run stmts Lits fuel pc env = some env2 → run stmts Lits (fuel + k) pc env = some env2
  | 0, k, pc, env, env2, h => by
    rw [run] at h
    by_cases hpc : pc = stmts.length
    · subst hpc
      simp only [if_true] at h
      rw [run_halt]; exact h
    · simp [hpc] at h
  | fuel + 1, k, pc, env, env2, h => by
    rw [run] at h
    by_cases hpc : pc = stmts.length
    · subst hpc
      simp only [if_true] at h
      rw [run_halt]; exact h
    · simp only [hpc, if_false] at h
      have e : fuel + 1 + k = (fuel + k) + 1 := by omega
      rw [e, run]
      simp only [hpc, if_false]
      cases hs : stmts[pc]? with
      | none => simp [hs] at h
      | some s =>
        simp only [hs] at h ⊢
        cases he : execStatement Lits s pc env with
        | none => simp [he] at h
        | some r =>
          obtain ⟨pc2, env3⟩ := r
          simp only [he] at h ⊢
          exact run_mono stmts Lits fuel k pc2 env3 env2 h

theorem evalTerm_write_ne (Lits : List FBPTerminal) (env : Env) (t u : TermRef) (v : Value)
    (h : t ≠ u) : evalTerm Lits (env.write u v) t = evalTerm Lits env t := by
  cases t with
  | loc i => simp [evalTerm, Env.write, h]
  | lit i =>
    simp only [evalTerm, Env.write, h, if_false]

theorem evalTerm_loc (Lits : List FBPTerminal) (env : Env) (i : Nat) :
    evalTerm Lits env (.loc i) = env (.loc i) := rfl

/-- Statements of option `j` inside a chain. -/
theorem getElem?_chain (L : Layout) (exit : Option Nat) :
    ∀ (xs : List UEdGraphPin) (j0 j k : Nat) (p : UEdGraphPin),
      xs[j]? = some p → k < 4 →
      (chain L exit j0 xs)[4 * j + k]? =
        (optionBlock L (some (L.base + 4 * (j0 + j + 1))) exit (j0 + j) p)[k]?
  | [], _, j, _, _, h, _ => by simp at h
  | x :: rest, j0, 0, k, p, h, hk => by
    have hx : x = p := by simpa using h
    subst hx
    simp only [chain, Nat.mul_zero, Nat.zero_add, Nat.add_zero]
    rw [List.getElem?_append_left (by simp [length_optionBlock, hk])]
  | x :: rest, j0, j + 1, k, p, h, hk => by
    have h2 : rest[j]? = some p := by simpa using h
    have ih := getElem?_chain L exit rest (j0 + 1) j k p h2 hk
    simp only [chain]
    rw [List.getElem?_append_right (by simp [length_optionBlock]; omega)]
    have e1 : 4 * (j + 1) + k - (optionBlock L (some (L.base + 4 * (j0 + 1))) exit j0 x).length
        = 4 * j + k := by simp [length_optionBlock]; omega
    have e2 : j0 + 1 + j = j0 + (j + 1) := by omega
    rw [e1, ih, e2]

/-- Statements of option `j` inside the output of a successful lowering. -/
theorem getElem?_lowered (L : Layout) (P : List FBlueprintCompiledStatement)
    (opts : List UEdGraphPin) (hP : P.length = L.base) (j k : Nat) (p : UEdGraphPin)
    (hj : opts[j]? = some p) (hk : k < 4) :
    (P ++ loweredStatements L opts)[L.base + 4 * j + k]? =
      (optionBlock L (some (L.base + 4 * (j + 1)))
        (some (L.base + 4 * opts.length + 1)) j p)[k]? := by
  have hlt : j < opts.length := (List.getElem?_eq_some.1 hj).1
  have hne : opts ≠ [] := by
    intro h0; rw [h0] at hlt; simp at hlt
  rw [List.getElem?_append_right (by omega)]
  have e : L.base + 4 * j + k - P.length = 4 * j + k := by omega
  simp only [loweredStatements, hne, if_false, List.append_assoc, e]
  rw [List.getElem?_append_left (by rw [length_chain]; omega)]
  have := getElem?_chain L (some (L.base + 4 * opts.length + 1)) opts 0 j k p hj hk
  simpa using this

theorem getElem?_lowered_default (L : Layout) (P : List FBlueprintCompiledStatement)
    (opts : List UEdGraphPin) (hP : P.length = L.base) (hne : opts ≠ []) :
    (P ++ loweredStatements L opts)[L.base + 4 * opts.length]? = some (defaultAssign L) ∧
      (P ++ loweredStatements L opts)[L.base + 4 * opts.length + 1]? = some exitNop ∧
      (P ++ loweredStatements L opts).length = L.base + 4 * opts.length + 2 := by
  have hlen := length_chain L (some (L.base + 4 * opts.length + 1)) opts 0
  refine ⟨?_, ?_, ?_⟩
  · rw [List.getElem?_append_right (by omega)]
    simp only [loweredStatements, hne, if_false, List.append_assoc]
    rw [List.getElem?_append_right (by rw [hlen]; omega)]
    have e : L.base + 4 * opts.length - P.length -
        (chain L (some (L.base + 4 * opts.length + 1)) 0 opts).length = 0 := by
      rw [hlen]; omega
    rw [e]; rfl
  · rw [List.getElem?_append_right (by omega)]
    simp only [loweredStatements, hne, if_false, List.append_assoc]
    rw [List.getElem?_append_right (by rw [hlen]; omega)]
    have e : L.base + 4 * opts.length + 1 - P.length -
        (chain L (some (L.base + 4 * opts.length + 1)) 0 opts).length = 1 := by
      rw [hlen]; omega
    rw [e]; rfl
  · simp [length_loweredStatements L opts hne, hP]
    omega

/-- An option whose name differs from the selector: the comparison fails and
the skip leads to the next block. -/
theorem run_skip (L : Layout) (P : List FBlueprintCompiledStatement)
    (opts : List UEdGraphPin) (Lits : List FBPTerminal) (b : Nat) (s : String)
    (hP : P.length = L.base) (hfn : L.fn = some .EqualEqual_NameName)
    (hB : L.B = some (.loc b))
    (j : Nat) (q : UEdGraphPin) (env : Env) (fuel : Nat)
    (hj : opts[j]? = some q) (hq : q.PinName ≠ s)
    (hS : evalTerm Lits env L.S = .name s)
    (hlit : evalTerm Lits env (.lit (L.lits + j)) = .name q.PinName) :
    run (P ++ loweredStatements L opts) Lits (fuel + 2) (L.base + 4 * j) env =
      run (P ++ loweredStatements L opts) Lits fuel (L.base + 4 * (j + 1))
        (env.write (.loc b) (.bool false)) := by
  have h0 := getElem?_lowered L P opts hP j 0 q hj (by omega)
  have h1 := getElem?_lowered L P opts hP j 1 q hj (by omega)
  simp only [optionBlock, Nat.add_zero] at h0 h1
  have hsq : ¬ s = q.PinName := fun h => hq h.symm
  rw [run_step _ _ (fuel + 1) _ (L.base + 4 * j + 1) env (env.write (.loc b) (.bool false)) _ h0
    (by simp [execStatement, hfn, hB, hS, hlit, callFunction, hsq])]
  rw [run_step _ _ fuel _ (L.base + 4 * (j + 1)) _ (env.write (.loc b) (.bool false)) _ h1
    (by simp [execStatement, hB, evalTerm, Env.write])]

/-- The option whose name equals the selector: the comparison succeeds, the
value is assigned and the exit goto leaves through the Nop. -/
theorem run_match (L : Layout) (P : List FBlueprintCompiledStatement)
    (opts : List UEdGraphPin) (Lits : List FBPTerminal) (b r : Nat) (s : String)
    (hP : P.length = L.base) (hfn : L.fn = some .EqualEqual_NameName)
    (hB : L.B = some (.loc b)) (hR : L.R = .loc r)
    (m : Nat) (p : UEdGraphPin) (v : TermRef) (env : Env) (fuel : Nat)
    (hm : opts[m]? = some p) (hp : p.PinName = s) (hv : L.val p = some v)
    (hS : evalTerm Lits env L.S = .name s)
    (hlit : evalTerm Lits env (.lit (L.lits + m)) = .name p.PinName) :
    run (P ++ loweredStatements L opts) Lits (fuel + 5) (L.base + 4 * m) env =
      some ((env.write (.loc b) (.bool true)).write (.loc r)
        (evalTerm Lits (env.write (.loc b) (.bool true)) v)) := by
  have hne : opts ≠ [] := by
    intro h0; rw [h0] at hm; simp at hm
  have h0 := getElem?_lowered L P opts hP m 0 p hm (by omega)
  have h1 := getElem?_lowered L P opts hP m 1 p hm (by omega)
  have h2 := getElem?_lowered L P opts hP m 2 p hm (by omega)
  have h3 := getElem?_lowered L P opts hP m 3 p hm (by omega)
  obtain ⟨_, h5, h6⟩ := getElem?_lowered_default L P opts hP hne
  simp only [optionBlock, Nat.add_zero, hv, Option.toList] at h0 h1 h2 h3
  rw [run_step _ _ (fuel + 4) _ (L.base + 4 * m + 1) env (env.write (.loc b) (.bool true)) _ h0
    (by simp [execStatement, hfn, hB, hS, hlit, callFunction, hp])]
  rw [run_step _ _ (fuel + 3) _ (L.base + 4 * m + 1 + 1) _ (env.write (.loc b) (.bool true)) _ h1
    (by simp [execStatement, hB, evalTerm, Env.write])]
  rw [run_step _ _ (fuel + 2) _ (L.base + 4 * m + 2 + 1) _
    ((env.write (.loc b) (.bool true)).write (.loc r)
      (evalTerm Lits (env.write (.loc b) (.bool true)) v)) _ h2
    (by simp [execStatement, hR])]
  rw [run_step _ _ (fuel + 1) _ (L.base + 4 * opts.length + 1) _
    ((env.write (.loc b) (.bool true)).write (.loc r)
      (evalTerm Lits (env.write (.loc b) (.bool true)) v)) _ h3
    (by simp [execStatement])]
  rw [run_step _ _ fuel _ (L.base + 4 * opts.length + 1 + 1) _
    ((env.write (.loc b) (.bool true)).write (.loc r)
      (evalTerm Lits (env.write (.loc b) (.bool true)) v)) _ h5
    (by simp [execStatement, exitNop])]
  have e : L.base + 4 * opts.length + 1 + 1 = (P ++ loweredStatements L opts).length := by
    rw [h6]
  rw [e, run_halt]

/-- The default assignment and the Nop. -/
theorem run_default (L : Layout) (P : List FBlueprintCompiledStatement)
    (opts : List UEdGraphPin) (Lits : List FBPTerminal) (r : Nat)
    (hP : P.length = L.base) (hR : L.R = .loc r) (hne : opts ≠ []) (env : Env) (fuel : Nat) :
    run (P ++ loweredStatements L opts) Lits (fuel + 2) (L.base + 4 * opts.length) env =
      some (env.write (.loc r) (evalTerm Lits env L.D)) := by
  obtain ⟨h4, h5, h6⟩ := getElem?_lowered_default L P opts hP hne
  rw [run_step _ _ (fuel + 1) _ (L.base + 4 * opts.length + 1) env
    (env.write (.loc r) (evalTerm Lits env L.D)) _ h4
    (by simp [execStatement, defaultAssign, hR])]
  rw [run_step _ _ fuel _ (L.base + 4 * opts.length + 1 + 1) _
    (env.write (.loc r) (evalTerm Lits env L.D)) _ h5
    (by simp [execStatement, exitNop])]
  have e : L.base + 4 * opts.length + 1 + 1 = (P ++ loweredStatements L opts).length := by
    rw [h6]
  rw [e, run_halt]

/-- Value of the literal `Compile` creates for option `j`. -/
theorem evalTerm_literal (Lits : List FBPTerminal) (opts : List UEdGraphPin) (j : Nat)
    (q : UEdGraphPin) (env : Env) (hj : opts[j]? = some q) :
    evalTerm (Lits ++ opts.map literalOf) env (.lit (Lits.length + j)) = .name q.PinName := by
  have h : (Lits ++ opts.map literalOf)[Lits.length + j]? = some (literalOf q) := by
    rw [List.getElem?_append_right (by omega)]
    simp [hj]
  simp [evalTerm, h, literalOf]

/-- Execution from the block of option `j` up to the first option `m` whose
name equals the selector. -/
theorem run_to_match (L : Layout) (P : List FBlueprintCompiledStatement)
    (opts : List UEdGraphPin) (Lits : List FBPTerminal) (b r : Nat) (s : String)
    (hP : P.length = L.base) (hfn : L.fn = some .EqualEqual_NameName)
    (hB : L.B = some (.loc b)) (hR : L.R = .loc r) (hSb : L.S ≠ .loc b)
    (hlit : ∀ j q env, opts[j]? = some q →
      evalTerm Lits env (.lit (L.lits + j)) = .name q.PinName)
    (m : Nat) (p : UEdGraphPin) (v : TermRef)
    (hm : opts[m]? = some p) (hp : p.PinName = s) (hv : L.val p = some v)
    (hvb : v ≠ .loc b) :
    ∀ (d j : Nat) (env : Env), j + d = m →
      (∀ i q, j ≤ i → i < m → opts[i]? = some q → q.PinName ≠ s) →
      evalTerm Lits env L.S = .name s →
      ∃ env2, run (P ++ loweredStatements L opts) Lits (2 * d + 5) (L.base + 4 * j) env =
          some env2 ∧ env2 (.loc r) = evalTerm Lits env v
  | 0, j, env, hjm, _, hS => by
    have hj : j = m := by omega
    subst hj
    refine ⟨_, run_match L P opts Lits b r s hP hfn hB hR j p v env 0 hm hp hv hS
      (hlit j p env hm), ?_⟩
    simp [Env.write, evalTerm_write_ne Lits env v (.loc b) (.bool true) hvb]
  | d + 1, j, env, hjm, hfirst, hS => by
    have hjlt : j < opts.length := by
      have := (List.getElem?_eq_some.1 hm).1
      omega
    have hq : opts[j]? = some opts[j] := List.getElem?_eq_getElem hjlt
    have hne : (opts[j]).PinName ≠ s := hfirst j _ (Nat.le_refl _) (by omega) hq
    have e : 2 * (d + 1) + 5 = (2 * d + 5) + 2 := by omega
    rw [e, run_skip L P opts Lits b s hP hfn hB j _ env (2 * d + 5) hq hne hS (hlit j _ env hq)]
    obtain ⟨env2, h1, h2⟩ := run_to_match L P opts Lits b r s hP hfn hB hR hSb hlit m p v
      hm hp hv hvb d (j + 1) (env.write (.loc b) (.bool false)) (by omega)
      (fun i q hi1 hi2 hiq => hfirst i q (by omega) hi2 hiq)
      (by rw [evalTerm_write_ne Lits env L.S (.loc b) _ hSb]; exact hS)
    exact ⟨env2, h1, by rw [h2, evalTerm_write_ne Lits env v (.loc b) _ hvb]⟩

/-- Execution from the block of option `j` when no option from `j` on has the
name of the selector. -/
theorem run_to_default (L : Layout) (P : List FBlueprintCompiledStatement)
    (opts : List UEdGraphPin) (Lits : List FBPTerminal) (b r : Nat) (s : String)
    (hP : P.length = L.base) (hfn : L.fn = some .EqualEqual_NameName)
    (hB : L.B = some (.loc b)) (hR : L.R = .loc r) (hSb : L.S ≠ .loc b)
    (hlit : ∀ j q env, opts[j]? = some q →
      evalTerm Lits env (.lit (L.lits + j)) = .name q.PinName)
    (hne : opts ≠ []) :
    ∀ (d j : Nat) (env : Env), j + d = opts.length →
      (∀ i q, j ≤ i → opts[i]? = some q → q.PinName ≠ s) →
      evalTerm Lits env L.S = .name s →
      ∃ env2, run (P ++ loweredStatements L opts) Lits (2 * d + 2) (L.base + 4 * j) env =
          some env2 ∧ env2 (.loc r) = evalTerm Lits env2 L.D ∧
          (L.D ≠ .loc b → env2 (.loc r) = evalTerm Lits env L.D)
  | 0, j, env, hjm, _, hS => by
    have hj : j = opts.length := by omega
    subst hj
    refine ⟨_, run_default L P opts Lits r hP hR hne env 0, ?_, fun _ => ?_⟩
    · by_cases hD : L.D = .loc r
      · simp [hD, Env.write, evalTerm]
      · rw [evalTerm_write_ne Lits env L.D (.loc r) _ hD]
        simp [Env.write]
    · simp [Env.write]
  | d + 1, j, env, hjm, hnone, hS => by
    have hjlt : j < opts.length := by omega
    have hq : opts[j]? = some opts[j] := List.getElem?_eq_getElem hjlt
    have hneq : (opts[j]).PinName ≠ s := hnone j _ (Nat.le_refl _) hq
    have e : 2 * (d + 1) + 2 = (2 * d + 2) + 2 := by omega
    rw [e, run_skip L P opts Lits b s hP hfn hB j _ env (2 * d + 2) hq hneq hS (hlit j _ env hq)]
    obtain ⟨env2, h1, h2, h3⟩ := run_to_default L P opts Lits b r s hP hfn hB hR hSb hlit hne
      d (j + 1) (env.write (.loc b) (.bool false)) (by omega)
      (fun i q hi1 hiq => hnone i q (by omega) hiq)
      (by rw [evalTerm_write_ne Lits env L.S (.loc b) _ hSb]; exact hS)
    exact ⟨env2, h1, h2, fun hD => by rw [h3 hD, evalTerm_write_ne Lits env L.D (.loc b) _ hD]⟩

/-! ## Semantics of a successful lowering -/

/-- C1. Let the selector, result and default terminals and every option value
terminal resolve, the result and the scratch boolean be locals, and the
scratch boolean differ from the selector and from the value terminal of the
option in question. If the selector holds the name `s` and `p` is the first
option pin, in declaration order, whose name is `s`, then running the emitted
statements from the first one, with enough fuel for `4n + 2` statements, ends
with the result terminal holding the value of the terminal of `p`. -/
theorem first_match (H : FKCHandler_Select) (G : FEdGraphUtilities)
    (C : FKismetFunctionContext) (node : UDialogueK2Node_Select) (S D V : TermRef)
    (r b : Nat) (s : String) (p : UEdGraphPin) (env : Env) (fuel : Nat)
    (hS : C.NetMap (G.GetNetFromPin node.VariableNamePin) = some S)
    (hR : C.NetMap node.ReturnValuePin = some (.loc r))
    (hD : C.NetMap (G.GetNetFromPin node.DefaultValuePin) = some D)
    (hB : H.BoolTermMap node.NodeId = some (.loc b))
    (hres : ∀ q ∈ node.OptionPins, (C.NetMap (G.GetNetFromPin q)).isSome = true)
    (hSb : S ≠ .loc b)
    (hs : evalTerm (H.Compile G C node).Literals env S = .name s)
    (hp : node.OptionPins.find? (fun q => decide (q.PinName = s)) = some p)
    (hV : C.NetMap (G.GetNetFromPin p) = some V) (hVb : V ≠ .loc b)
    (hfuel : 4 * node.OptionPins.length + 2 ≤ fuel) :
    ∃ env2, runEmitted H G C node fuel env = some env2 ∧
      env2 (.loc r) = evalTerm (H.Compile G C node).Literals env V := by
  have hC := Compile_lowered H G C node S (.loc r) D hS hR hD ((resolves_iff C G _).1 hres)
  obtain ⟨hps, xs, ys, hopts, hxs⟩ := List.find?_eq_some.1 hp
  have hps2 : p.PinName = s := by simpa using hps
  have hm : node.OptionPins[xs.length]? = some p := by
    rw [hopts, List.getElem?_append_right (Nat.le_refl _)]
    simp
  have hlen : xs.length < node.OptionPins.length := (List.getElem?_eq_some.1 hm).1
  have hfirst : ∀ i q, 0 ≤ i → i < xs.length → node.OptionPins[i]? = some q →
      q.PinName ≠ s := by
    intro i q _ hi hq
    rw [hopts, List.getElem?_append_left hi] at hq
    have := hxs q (List.getElem?_mem hq)
    simpa using this
  simp only [runEmitted, hC] at hs ⊢
  obtain ⟨env2, h1, h2⟩ := run_to_match (layoutOf H G C node S (.loc r) D)
    C.AllGeneratedStatements node.OptionPins (C.Literals ++ node.OptionPins.map literalOf)
    b r s rfl rfl hB rfl hSb
    (fun j q env hj => evalTerm_literal C.Literals node.OptionPins j q env hj)
    xs.length p V hm hps2 hV hVb xs.length 0 env (by omega) hfirst hs
  refine ⟨env2, ?_, h2⟩
  have e : fuel = (2 * xs.length + 5) + (fuel - (2 * xs.length + 5)) := by omega
  rw [e]
  exact run_mono _ _ _ _ _ _ _ (by simpa using h1)

/-- Witness of C1: options `A` with value 1 and `A` with value 2, selector
`A`: the result is 1. -/
theorem first_match_witness :
    ∃ env2, runEmitted sampleHandler sampleGraph sampleContext
        (sampleNode [samplePin 10 "A", samplePin 11 "A"]) 10 (sampleEnv "A" 99 1 2) =
          some env2 ∧
      env2 (.loc 2) = .num 1 :=
  first_match sampleHandler sampleGraph sampleContext
    (sampleNode [samplePin 10 "A", samplePin 11 "A"]) (.loc 0) (.loc 1) (.loc 10) 2 3 "A"
    (samplePin 10 "A") (sampleEnv "A" 99 1 2) 10
    (by decide) (by decide) (by decide) (by decide) (by decide) (by decide) (by decide)
    (by decide) (by decide) (by decide) (by decide)

/-- C2. Let the selector, result and default terminals and every option value
terminal of a node with `n ≥ 1` options resolve, the result and the scratch
boolean be locals, and the scratch boolean differ from the selector. If the
selector holds a name `s` that no option has, then running the emitted
statements from the first one, with enough fuel for `4n + 2` statements, ends
with the result terminal holding the value of the default terminal; that is
the value the default terminal had at the start, unless the default terminal
is the scratch boolean. -/
theorem fallback (H : FKCHandler_Select) (G : FEdGraphUtilities)
    (C : FKismetFunctionContext) (node : UDialogueK2Node_Select) (S D : TermRef)
    (r b : Nat) (s : String) (env : Env) (fuel : Nat)
    (hS : C.NetMap (G.GetNetFromPin node.VariableNamePin) = some S)
    (hR : C.NetMap node.ReturnValuePin = some (.loc r))
    (hD : C.NetMap (G.GetNetFromPin node.DefaultValuePin) = some D)
    (hB : H.BoolTermMap node.NodeId = some (.loc b))
    (hres : ∀ q ∈ node.OptionPins, (C.NetMap (G.GetNetFromPin q)).isSome = true)
    (hn : 1 ≤ node.OptionPins.length)
    (hSb : S ≠ .loc b)
    (hs : evalTerm (H.Compile G C node).Literals env S = .name s)
    (hno : ∀ q ∈ node.OptionPins, q.PinName ≠ s)
    (hfuel : 4 * node.OptionPins.length + 2 ≤ fuel) :
    ∃ env2, runEmitted H G C node fuel env = some env2 ∧
      env2 (.loc r) = evalTerm (H.Compile G C node).Literals env2 D ∧
      (D ≠ .loc b → env2 (.loc r) = evalTerm (H.Compile G C node).Literals env D) := by
  have hC := Compile_lowered H G C node S (.loc r) D hS hR hD ((resolves_iff C G _).1 hres)
  have hne : node.OptionPins ≠ [] := by
    intro h0; rw [h0] at hn; simp at hn
  simp only [runEmitted, hC] at hs ⊢
  obtain ⟨env2, h1, h2, h3⟩ := run_to_default (layoutOf H G C node S (.loc r) D)
    C.AllGeneratedStatements node.OptionPins (C.Literals ++ node.OptionPins.map literalOf)
    b r s rfl rfl hB rfl hSb
    (fun j q env hj => evalTerm_literal C.Literals node.OptionPins j q env hj) hne
    node.OptionPins.length 0 env (by omega)
    (fun i q _ hq => hno q (List.getElem?_mem hq)) hs
  refine ⟨env2, ?_, h2, h3⟩
  have e : fuel = (2 * node.OptionPins.length + 2) +
      (fuel - (2 * node.OptionPins.length + 2)) := by omega
  rw [e]
  exact run_mono _ _ _ _ _ _ _ (by simpa using h1)

/-- Witness of C2: options `A` with value 1 and `B` with value 2, default 99,
selector `C`: the result is 99. -/
theorem fallback_witness :
    ∃ env2, runEmitted sampleHandler sampleGraph sampleContext
        (sampleNode [samplePin 10 "A", samplePin 11 "B"]) 10 (sampleEnv "C" 99 1 2) =
          some env2 ∧
      env2 (.loc 2) = .num 99 := by
  obtain ⟨env2, h1, _, h3⟩ := fallback sampleHandler sampleGraph sampleContext
    (sampleNode [samplePin 10 "A", samplePin 11 "B"]) (.loc 0) (.loc 1) 2 3 "C"
    (sampleEnv "C" 99 1 2) 10
    (by decide) (by decide) (by decide) (by decide) (by decide) (by decide) (by decide)
    (by decide) (by decide) (by decide)
  exact ⟨env2, h1, h3 (by decide)⟩

/-! ## Determinism -/

theorem forall2_sameOperand_refl (lits1 lits2 : Nat) (Lits1 Lits2 : List FBPTerminal) :
    ∀ l : List TermRef, List.Forall₂ (sameOperand lits1 lits2 Lits1 Lits2) l l
  | [] => List.Forall₂.nil
  | _ :: l => List.Forall₂.cons (Or.inl rfl) (forall2_sameOperand_refl lits1 lits2 Lits1 Lits2 l)

/-- The blocks of one option in two lowerings of the same operands are
structurally the same. -/
theorem sameStatement_optionBlock (L1 L2 : Layout) (Lits1 Lits2 : List FBPTerminal)
    (hfn : L1.fn = L2.fn) (hB : L1.B = L2.B) (hS : L1.S = L2.S) (hR : L1.R = L2.R)
    (hval : L1.val = L2.val) (skip1 skip2 exit1 exit2 : Option Nat) (j : Nat) (p : UEdGraphPin)
    (hskip : sameTarget L1.base L2.base skip1 skip2)
    (hexit : sameTarget L1.base L2.base exit1 exit2)
    (hl : Lits1[L1.lits + j]? = Lits2[L2.lits + j]?)
    (hl2 : (Lits1[L1.lits + j]?).isSome = true) :
    List.Forall₂ (sameStatement L1.base L2.base L1.lits L2.lits Lits1 Lits2)
      (optionBlock L1 skip1 exit1 j p) (optionBlock L2 skip2 exit2 j p) := by
  have hlit : sameOperand L1.lits L2.lits Lits1 Lits2 (.lit (L1.lits + j)) (.lit (L2.lits + j)) :=
    Or.inr ⟨by omega, by omega, by omega, hl, hl2⟩
  simp only [optionBlock, hfn, hB, hS, hR, hval]
  refine List.Forall₂.cons ?_ (List.Forall₂.cons ?_ (List.Forall₂.cons ?_
    (List.Forall₂.cons ?_ List.Forall₂.nil)))
  · exact ⟨rfl, rfl, rfl, rfl, rfl,
      List.Forall₂.cons (Or.inl rfl) (List.Forall₂.cons hlit List.Forall₂.nil), rfl, trivial⟩
  · exact ⟨rfl, rfl, rfl, rfl, rfl, List.Forall₂.nil, rfl, hskip⟩
  · exact ⟨rfl, rfl, rfl, rfl, rfl, forall2_sameOperand_refl _ _ _ _ _, rfl, trivial⟩
  · exact ⟨rfl, rfl, rfl, rfl, rfl, List.Forall₂.nil, rfl, hexit⟩

theorem forall2_append {α β : Type} {R : α → β → Prop} {l1 l2 : List α} {m1 m2 : List β}
    (h1 : List.Forall₂ R l1 m1) (h2 : List.Forall₂ R l2 m2) :
    List.Forall₂ R (l1 ++ l2) (m1 ++ m2) := by
  induction h1 with
  | nil => simpa using h2
  | cons h _ ih => exact List.Forall₂.cons h ih

theorem forall2_take {α β : Type} {R : α → β → Prop} {l : List α} {m : List β}
    (h : List.Forall₂ R l m) : ∀ k, List.Forall₂ R (l.take k) (m.take k) := by
  induction h with
  | nil => intro k; simp
  | cons h _ ih =>
    intro k
    cases k with
    | zero => simp
    | succ k => simpa using List.Forall₂.cons h (ih k)

/-- The chains of two lowerings of the same operands are structurally the
same. -/
theorem sameStatement_chain (L1 L2 : Layout) (Lits1 Lits2 : List FBPTerminal)
    (hfn : L1.fn = L2.fn) (hB : L1.B = L2.B) (hS : L1.S = L2.S) (hR : L1.R = L2.R)
    (hval : L1.val = L2.val) (exit1 exit2 : Option Nat)
    (hexit : sameTarget L1.base L2.base exit1 exit2) :
    ∀ (xs : List UEdGraphPin) (j0 : Nat),
      (∀ j, j < xs.length → Lits1[L1.lits + (j0 + j)]? = Lits2[L2.lits + (j0 + j)]? ∧
        (Lits1[L1.lits + (j0 + j)]?).isSome = true) →
      List.Forall₂ (sameStatement L1.base L2.base L1.lits L2.lits Lits1 Lits2)
        (chain L1 exit1 j0 xs) (chain L2 exit2 j0 xs)
  | [], _, _ => List.Forall₂.nil
  | p :: rest, j0, h => by
    simp only [chain]
    have h0 := h 0 (by simp)
    apply forall2_append
    · exact sameStatement_optionBlock L1 L2 Lits1 Lits2 hfn hB hS hR hval _ _ _ _ j0 p
        ⟨by omega, by omega, by omega⟩ hexit h0.1 h0.2
    · apply sameStatement_chain L1 L2 Lits1 Lits2 hfn hB hS hR hval exit1 exit2 hexit rest
        (j0 + 1)
      intro j hj
      have := h (j + 1) (by simp; omega)
      have e : j0 + 1 + j = j0 + (j + 1) := by omega
      rw [e]; exact this

theorem getElem?_new_literal (Lits : List FBPTerminal) (ys : List UEdGraphPin) (j : Nat) :
    (Lits ++ ys.map literalOf)[Lits.length + j]? = (ys[j]?).map literalOf := by
  rw [List.getElem?_append_right (by omega)]
  simp

/-- Two lowerings of the same operands that went through are structurally the
same. -/
theorem sameStatement_lowered (L1 L2 : Layout) (Lits1 Lits2 : List FBPTerminal)
    (hfn : L1.fn = L2.fn) (hB : L1.B = L2.B) (hS : L1.S = L2.S) (hR : L1.R = L2.R)
    (hD : L1.D = L2.D) (hval : L1.val = L2.val) (opts : List UEdGraphPin)
    (h1 : Lits1.length = L1.lits) (h2 : Lits2.length = L2.lits) :
    List.Forall₂
      (sameStatement L1.base L2.base L1.lits L2.lits (Lits1 ++ opts.map literalOf)
        (Lits2 ++ opts.map literalOf))
      (loweredStatements L1 opts) (loweredStatements L2 opts) := by
  simp only [loweredStatements]
  apply forall2_append
  · apply forall2_append
    · apply sameStatement_chain L1 L2 _ _ hfn hB hS hR hval
      · exact ⟨by omega, by omega, by omega⟩
      · intro j hj
        rw [← h1, ← h2, getElem?_new_literal, getElem?_new_literal]
        simp [List.getElem?_eq_getElem hj]
    · by_cases hne : opts = []
      · simp [hne]
      · simp only [hne, if_false]
        refine List.Forall₂.cons ?_ List.Forall₂.nil
        exact ⟨rfl, rfl, rfl, rfl, by simp [defaultAssign, hR],
          by simp only [defaultAssign, hD]; exact forall2_sameOperand_refl _ _ _ _ _,
          rfl, trivial⟩
  · exact List.Forall₂.cons ⟨rfl, rfl, rfl, rfl, rfl, List.Forall₂.nil, rfl, trivial⟩
      List.Forall₂.nil

/-- Two lowerings of the same operands that stopped at the same option are
structurally the same. -/
theorem sameStatement_aborted (L1 L2 : Layout) (Lits1 Lits2 : List FBPTerminal)
    (hfn : L1.fn = L2.fn) (hB : L1.B = L2.B) (hS : L1.S = L2.S) (hR : L1.R = L2.R)
    (hval : L1.val = L2.val) (xs : List UEdGraphPin) (p : UEdGraphPin)
    (h1 : Lits1.length = L1.lits) (h2 : Lits2.length = L2.lits) :
    List.Forall₂
      (sameStatement L1.base L2.base L1.lits L2.lits (Lits1 ++ (xs ++ [p]).map literalOf)
        (Lits2 ++ (xs ++ [p]).map literalOf))
      (abortedStatements L1 xs p) (abortedStatements L2 xs p) := by
  have hlit : ∀ j, j < (xs ++ [p]).length →
      (Lits1 ++ (xs ++ [p]).map literalOf)[L1.lits + j]? =
          (Lits2 ++ (xs ++ [p]).map literalOf)[L2.lits + j]? ∧
        ((Lits1 ++ (xs ++ [p]).map literalOf)[L1.lits + j]?).isSome = true := by
    intro j hj
    rw [← h1, ← h2, getElem?_new_literal, getElem?_new_literal]
    simp [List.getElem?_eq_getElem hj]
  simp only [abortedStatements]
  apply forall2_append
  · apply sameStatement_chain L1 L2 _ _ hfn hB hS hR hval none none trivial
    intro j hj
    rw [Nat.zero_add]
    exact hlit j (by simp; omega)
  · apply forall2_take
    have := hlit xs.length (by simp)
    exact sameStatement_optionBlock L1 L2 _ _ hfn hB hS hR hval none none none none xs.length p
      trivial trivial this.1 this.2

/-- Two lowerings that both stop on a missing selector, result or default
terminal emit nothing. -/
theorem determinism_unresolved (H : FKCHandler_Select) (G : FEdGraphUtilities)
    (node : UDialogueK2Node_Select) (C1 C2 : FKismetFunctionContext)
    (hNM : C1.NetMap = C2.NetMap)
    (h : C1.NetMap (G.GetNetFromPin node.VariableNamePin) = none ∨
      C1.NetMap node.ReturnValuePin = none ∨
      C1.NetMap (G.GetNetFromPin node.DefaultValuePin) = none) :
    List.Forall₂
        (sameStatement C1.AllGeneratedStatements.length C2.AllGeneratedStatements.length
          C1.Literals.length C2.Literals.length
          (H.Compile G C1 node).Literals (H.Compile G C2 node).Literals)
        (emitted H G C1 node) (emitted H G C2 node) ∧
      (H.Compile G C1 node).Literals.drop C1.Literals.length =
        (H.Compile G C2 node).Literals.drop C2.Literals.length ∧
      (H.Compile G C1 node).MessageLog.drop C1.MessageLog.length =
        (H.Compile G C2 node).MessageLog.drop C2.MessageLog.length := by
  have h2 := h
  rw [hNM] at h2
  have e1 := Compile_unresolved H G C1 node h
  have e2 := Compile_unresolved H G C2 node h2
  simp only [emitted, e1, e2, List.drop_length]
  exact ⟨List.Forall₂.nil, by simp⟩

/-- C10. Lowering the same node in two function contexts that register the
same terminals for its pins, but may hold different statements, literals,
locals and messages, emits structurally identical statement lists: the same
length and, position by position, the same kind, function, left hand side and
jump-target marker, operands of the same role (the same terminal, or literals
created by the two lowerings at the same relative position with the same
contents) and the same jump target relative to the start of the emitted
block. The two lowerings also create the same literals and report the same
diagnostics. -/
theorem determinism (H : FKCHandler_Select) (G : FEdGraphUtilities)
    (node : UDialogueK2Node_Select) (C1 C2 : FKismetFunctionContext)
    (hNM : C1.NetMap = C2.NetMap) :
    List.Forall₂
        (sameStatement C1.AllGeneratedStatements.length C2.AllGeneratedStatements.length
          C1.Literals.length C2.Literals.length
          (H.Compile G C1 node).Literals (H.Compile G C2 node).Literals)
        (emitted H G C1 node) (emitted H G C2 node) ∧
      (H.Compile G C1 node).Literals.drop C1.Literals.length =
        (H.Compile G C2 node).Literals.drop C2.Literals.length ∧
      (H.Compile G C1 node).MessageLog.drop C1.MessageLog.length =
        (H.Compile G C2 node).MessageLog.drop C2.MessageLog.length := by
  have hunres := determinism_unresolved H G node C1 C2 hNM
  cases hS : C1.NetMap (G.GetNetFromPin node.VariableNamePin) with
  | none => exact hunres (Or.inl hS)
  | some S =>
  cases hR : C1.NetMap node.ReturnValuePin with
  | none => exact hunres (Or.inr (Or.inl hR))
  | some R =>
  cases hD : C1.NetMap (G.GetNetFromPin node.DefaultValuePin) with
  | none => exact hunres (Or.inr (Or.inr hD))
  | some D =>
  have hS2 := hS
  have hR2 := hR
  have hD2 := hD
  rw [hNM] at hS2 hR2 hD2
  have hval : (layoutOf H G C1 node S R D).val = (layoutOf H G C2 node S R D).val := by
    simp [layoutOf, hNM]
  cases hf : node.OptionPins.find? (fun q => (C1.NetMap (G.GetNetFromPin q)).isNone) with
  | none =>
    have hres : ∀ q ∈ node.OptionPins, ∃ v, C1.NetMap (G.GetNetFromPin q) = some v := by
      intro q hq
      have := List.find?_eq_none.1 hf q hq
      cases hq2 : C1.NetMap (G.GetNetFromPin q) with
      | none => simp [hq2] at this
      | some v => exact ⟨v, rfl⟩
    have hres2 := hres
    rw [hNM] at hres2
    have e1 := Compile_lowered H G C1 node S R D hS hR hD hres
    have e2 := Compile_lowered H G C2 node S R D hS2 hR2 hD2 hres2
    simp only [emitted, e1, e2, List.drop_left]
    exact ⟨sameStatement_lowered (layoutOf H G C1 node S R D) (layoutOf H G C2 node S R D)
      C1.Literals C2.Literals rfl rfl rfl rfl rfl hval node.OptionPins rfl rfl, by simp⟩
  | some p =>
    obtain ⟨hp, xs, ys, hopts, hxs⟩ := List.find?_eq_some.1 hf
    have hp1 : C1.NetMap (G.GetNetFromPin p) = none := by simpa using hp
    have hres : ∀ q ∈ xs, ∃ v, C1.NetMap (G.GetNetFromPin q) = some v := by
      intro q hq
      have := hxs q hq
      cases hq2 : C1.NetMap (G.GetNetFromPin q) with
      | none => simp [hq2] at this
      | some v => exact ⟨v, rfl⟩
    have hp2 := hp1
    have hres2 := hres
    rw [hNM] at hp2 hres2
    have e1 := Compile_aborted H G C1 node S R D xs ys p hS hR hD hopts hres hp1
    have e2 := Compile_aborted H G C2 node S R D xs ys p hS2 hR2 hD2 hopts hres2 hp2
    simp only [emitted, e1, e2, List.drop_left]
    exact ⟨sameStatement_aborted (layoutOf H G C1 node S R D) (layoutOf H G C2 node S R D)
      C1.Literals C2.Literals rfl rfl rfl rfl hval xs p rfl rfl, by simp⟩

/-- Witness of C10: the sample node lowered in the empty sample context and
in the sample context that already holds statements and a literal. -/
theorem determinism_witness :
    List.Forall₂
        (sameStatement sampleContext.AllGeneratedStatements.length
          sampleContextBusy.AllGeneratedStatements.length
          sampleContext.Literals.length sampleContextBusy.Literals.length
          (sampleHandler.Compile sampleGraph sampleContext
            (sampleNode [samplePin 10 "A", samplePin 11 "B"])).Literals
          (sampleHandler.Compile sampleGraph sampleContextBusy
            (sampleNode [samplePin 10 "A", samplePin 11 "B"])).Literals)
        (emitted sampleHandler sampleGraph sampleContext
          (sampleNode [samplePin 10 "A", samplePin 11 "B"]))
        (emitted sampleHandler sampleGraph sampleContextBusy
          (sampleNode [samplePin 10 "A", samplePin 11 "B"])) :=
  (determinism sampleHandler sampleGraph (sampleNode [samplePin 10 "A", samplePin 11 "B"])
    sampleContext sampleContextBusy rfl).1

/-! ## Linking of the chain -/

theorem getElem?_emitted (H : FKCHandler_Select) (G : FEdGraphUtilities)
    (C : FKismetFunctionContext) (node : UDialogueK2Node_Select) (k : Nat) :
    (emitted H G C node)[k]? =
      (H.Compile G C node).AllGeneratedStatements[C.AllGeneratedStatements.length + k]? := by
  simp [emitted, List.getElem?_drop]

/-- Statements of option `j` in the output of a successful lowering, counted
from the start of the emitted block. -/
theorem getElem?_loweredStatements (L : Layout) (opts : List UEdGraphPin) (j k : Nat)
    (p : UEdGraphPin) (hj : opts[j]? = some p) (hk : k < 4) :
    (loweredStatements L opts)[4 * j + k]? =
      (optionBlock L (some (L.base + 4 * (j + 1)))
        (some (L.base + 4 * opts.length + 1)) j p)[k]? := by
  have h := getElem?_lowered L (List.replicate L.base {}) opts (by simp) j k p hj hk
  rw [List.getElem?_append_right (by simp [Nat.add_assoc])] at h
  have e : L.base + 4 * j + k - (List.replicate L.base
      ({} : FBlueprintCompiledStatement)).length = 4 * j + k := by simp; omega
  rw [e] at h
  exact h

theorem getElem?_loweredStatements_default (L : Layout) (opts : List UEdGraphPin)
    (hne : opts ≠ []) :
    (loweredStatements L opts)[4 * opts.length]? = some (defaultAssign L) ∧
      (loweredStatements L opts)[4 * opts.length + 1]? = some exitNop := by
  obtain ⟨h1, h2, _⟩ := getElem?_lowered_default L (List.replicate L.base {}) opts (by simp) hne
  rw [List.getElem?_append_right (by simp [Nat.add_assoc])] at h1 h2
  have e1 : L.base + 4 * opts.length - (List.replicate L.base
      ({} : FBlueprintCompiledStatement)).length = 4 * opts.length := by simp
  have e2 : L.base + 4 * opts.length + 1 - (List.replicate L.base
      ({} : FBlueprintCompiledStatement)).length = 4 * opts.length + 1 := by simp; omega
  rw [e1] at h1
  rw [e2] at h2
  exact ⟨h1, h2⟩

/-- C11. After a successful lowering of `n ≥ 1` options: for every `i` with
`i + 1 < n` the GotoIfNot of option `i` targets the CallFunction of option
`i + 1`, which is marked as a jump target; the GotoIfNot of the last option
targets the default assignment of the default terminal to the result
terminal, which is marked as a jump target; and the CallFunction of option 0
is not marked as a jump target. -/
theorem chain_linking (H : FKCHandler_Select) (G : FEdGraphUtilities)
    (C : FKismetFunctionContext) (node : UDialogueK2Node_Select) (S R D : TermRef)
    (hS : C.NetMap (G.GetNetFromPin node.VariableNamePin) = some S)
    (hR : C.NetMap node.ReturnValuePin = some R)
    (hD : C.NetMap (G.GetNetFromPin node.DefaultValuePin) = some D)
    (hres : ∀ q ∈ node.OptionPins, (C.NetMap (G.GetNetFromPin q)).isSome = true)
    (hn : 1 ≤ node.OptionPins.length) :
    (∀ i, i + 1 < node.OptionPins.length →
      ∃ skip call,
        (emitted H G C node)[4 * i + 1]? = some skip ∧
        skip.Type_ = .KCST_GotoIfNot ∧
        skip.TargetLabel = some (C.AllGeneratedStatements.length + 4 * (i + 1)) ∧
        (H.Compile G C node).AllGeneratedStatements[
          C.AllGeneratedStatements.length + 4 * (i + 1)]? = some call ∧
        (emitted H G C node)[4 * (i + 1)]? = some call ∧
        call.Type_ = .KCST_CallFunction ∧
        call.RHS = [S, .lit (C.Literals.length + (i + 1))] ∧
        call.bIsJumpTarget = true) ∧
    (∃ skip,
      (emitted H G C node)[4 * (node.OptionPins.length - 1) + 1]? = some skip ∧
      skip.Type_ = .KCST_GotoIfNot ∧
      skip.TargetLabel = some (C.AllGeneratedStatements.length + 4 * node.OptionPins.length) ∧
      (H.Compile G C node).AllGeneratedStatements[
          C.AllGeneratedStatements.length + 4 * node.OptionPins.length]? =
        some { Type_ := .KCST_Assignment, bIsJumpTarget := true, LHS := some R, RHS := [D] } ∧
      (emitted H G C node)[4 * node.OptionPins.length]? =
        some { Type_ := .KCST_Assignment, bIsJumpTarget := true, LHS := some R, RHS := [D] }) ∧
    (∃ call,
      (emitted H G C node)[0]? = some call ∧
      call.Type_ = .KCST_CallFunction ∧
      call.RHS = [S, .lit (C.Literals.length + 0)] ∧
      call.bIsJumpTarget = false) := by
  have hne : node.OptionPins ≠ [] := by
    intro h0; rw [h0] at hn; simp at hn
  have hE := emitted_lowered H G C node S R D hS hR hD hres
  have hget : ∀ j (hj : j < node.OptionPins.length) k, k < 4 →
      (emitted H G C node)[4 * j + k]? =
        (optionBlock (layoutOf H G C node S R D)
          (some ((layoutOf H G C node S R D).base + 4 * (j + 1)))
          (some ((layoutOf H G C node S R D).base + 4 * node.OptionPins.length + 1)) j
          node.OptionPins[j])[k]? := by
    intro j hj k hk
    rw [hE]
    exact getElem?_loweredStatements _ _ j k _ (List.getElem?_eq_getElem hj) hk
  refine ⟨?_, ?_, ?_⟩
  · intro i hi
    have h1 := hget i (by omega) 1 (by omega)
    have h2 := hget (i + 1) hi 0 (by omega)
    simp [optionBlock] at h1 h2
    refine ⟨_, _, h1, rfl, by simp [layoutOf], ?_, h2, rfl, by simp [layoutOf], by simp⟩
    rw [← getElem?_emitted, h2]
  · have h1 := hget (node.OptionPins.length - 1) (by omega) 1 (by omega)
    have h2 := (getElem?_loweredStatements_default (layoutOf H G C node S R D)
      node.OptionPins hne).1
    rw [← hE] at h2
    simp [optionBlock] at h1
    have e : node.OptionPins.length - 1 + 1 = node.OptionPins.length := by omega
    refine ⟨_, h1, rfl, by simp [layoutOf, e], ?_, ?_⟩
    · rw [← getElem?_emitted, h2]; simp [defaultAssign, layoutOf]
    · rw [h2]; simp [defaultAssign, layoutOf]
  · have h0 := hget 0 (by omega) 0 (by omega)
    simp [optionBlock] at h0
    exact ⟨_, h0, rfl, by simp [layoutOf], by simp⟩

/-- Witness of C11 on the sample node with two options: the first GotoIfNot
targets statement 4, the second CallFunction, which is marked. -/
theorem chain_linking_witness :
    ∃ skip call,
      (emitted sampleHandler sampleGraph sampleContext
        (sampleNode [samplePin 10 "A", samplePin 11 "A"]))[4 * 0 + 1]? = some skip ∧
      skip.Type_ = .KCST_GotoIfNot ∧
      skip.TargetLabel = some (sampleContext.AllGeneratedStatements.length + 4 * (0 + 1)) ∧
      (sampleHandler.Compile sampleGraph sampleContext
        (sampleNode [samplePin 10 "A", samplePin 11 "A"])).AllGeneratedStatements[
          sampleContext.AllGeneratedStatements.length + 4 * (0 + 1)]? = some call ∧
      (emitted sampleHandler sampleGraph sampleContext
        (sampleNode [samplePin 10 "A", samplePin 11 "A"]))[4 * (0 + 1)]? = some call ∧
      call.Type_ = .KCST_CallFunction ∧
      call.RHS = [.loc 0, .lit (sampleContext.Literals.length + (0 + 1))] ∧
      call.bIsJumpTarget = true :=
  (chain_linking sampleHandler sampleGraph sampleContext
    (sampleNode [samplePin 10 "A", samplePin 11 "A"]) (.loc 0) (.loc 2) (.loc 1)
    (by decide) (by decide) (by decide) (by decide) (by decide)).1 0 (by decide)

/-! ## Shape of the comparisons -/

/-- C12. After a successful lowering of `n` options, for every option `i` with
pin `p`: the CallFunction of option `i` has as destination the scratch
boolean registered for the node, as function the name equality
`EqualEqual_NameName`, and as arguments the selector terminal followed by a
literal terminal of name type that carries the name of `p`; the GotoIfNot of
option `i` has the same scratch boolean as condition. The lowering creates
exactly `n` terminals, the literals of the options in order, and no local. -/
theorem comparison_shape (H : FKCHandler_Select) (G : FEdGraphUtilities)
    (C : FKismetFunctionContext) (node : UDialogueK2Node_Select) (S R D : TermRef)
    (hS : C.NetMap (G.GetNetFromPin node.VariableNamePin) = some S)
    (hR : C.NetMap node.ReturnValuePin = some R)
    (hD : C.NetMap (G.GetNetFromPin node.DefaultValuePin) = some D)
    (hres : ∀ q ∈ node.OptionPins, (C.NetMap (G.GetNetFromPin q)).isSome = true) :
    (∀ i p, node.OptionPins[i]? = some p →
      ∃ call skip,
        (emitted H G C node)[4 * i]? = some call ∧
        call.Type_ = .KCST_CallFunction ∧
        call.LHS = H.BoolTermMap node.NodeId ∧
        call.FunctionToCall = some .EqualEqual_NameName ∧
        call.RHS = [S, .lit (C.Literals.length + i)] ∧
        (H.Compile G C node).Literals[C.Literals.length + i]? =
          some { Name := p.PinName, PinCategory := PC_Name, bIsLiteral := true } ∧
        (emitted H G C node)[4 * i + 1]? = some skip ∧
        skip.Type_ = .KCST_GotoIfNot ∧
        skip.LHS = H.BoolTermMap node.NodeId) ∧
    (H.Compile G C node).Literals =
      C.Literals ++ node.OptionPins.map
        (fun p => { Name := p.PinName, PinCategory := PC_Name, bIsLiteral := true }) ∧
    (H.Compile G C node).Literals.length = C.Literals.length + node.OptionPins.length ∧
    (H.Compile G C node).Locals = C.Locals := by
  have hE := emitted_lowered H G C node S R D hS hR hD hres
  have hC := Compile_lowered H G C node S R D hS hR hD ((resolves_iff C G _).1 hres)
  refine ⟨?_, by rw [hC]; rfl, by rw [hC]; simp, by rw [hC]⟩
  intro i p hp
  have h0 := getElem?_loweredStatements (layoutOf H G C node S R D) node.OptionPins i 0 p hp
    (by omega)
  have h1 := getElem?_loweredStatements (layoutOf H G C node S R D) node.OptionPins i 1 p hp
    (by omega)
  rw [← hE] at h0 h1
  simp [optionBlock] at h0 h1
  refine ⟨_, _, h0, rfl, rfl, rfl, rfl, ?_, h1, rfl, rfl⟩
  rw [hC]
  simp only []
  rw [getElem?_new_literal, hp]
  rfl

/-- Witness of C12 on the sample node with options `A` and `B`: the second
comparison. -/
theorem comparison_shape_witness :
    ∃ call skip,
      (emitted sampleHandler sampleGraph sampleContext
        (sampleNode [samplePin 10 "A", samplePin 11 "B"]))[4 * 1]? = some call ∧
      call.Type_ = .KCST_CallFunction ∧
      call.LHS = some (.loc 3) ∧
      call.FunctionToCall = some .EqualEqual_NameName ∧
      call.RHS = [.loc 0, .lit (0 + 1)] ∧
      (sampleHandler.Compile sampleGraph sampleContext
        (sampleNode [samplePin 10 "A", samplePin 11 "B"])).Literals[0 + 1]? =
        some { Name := "B", PinCategory := PC_Name, bIsLiteral := true } ∧
      (emitted sampleHandler sampleGraph sampleContext
        (sampleNode [samplePin 10 "A", samplePin 11 "B"]))[4 * 1 + 1]? = some skip ∧
      skip.Type_ = .KCST_GotoIfNot ∧
      skip.LHS = some (.loc 3) :=
  (comparison_shape sampleHandler sampleGraph sampleContext
    (sampleNode [samplePin 10 "A", samplePin 11 "B"]) (.loc 0) (.loc 2) (.loc 1)
    (by decide) (by decide) (by decide) (by decide)).1 1 (samplePin 11 "B") (by decide)

/-! ## Forward jumps and termination -/

/-- The interpreter moves control as `nextPosition` says. -/
theorem execStatement_nextPosition (Lits : List FBPTerminal) (s : FBlueprintCompiledStatement)
    (pc pc2 : Nat) (env env2 : Env) (h : execStatement Lits s pc env = some (pc2, env2)) :
    ∃ cond, nextPosition s pc cond = some pc2 := by
  unfold execStatement at h
  unfold nextPosition
  split at h
  · refine ⟨true, ?_⟩
    simp_all
  · refine ⟨true, ?_⟩
    split at h
    · simp only [Option.map_eq_some'] at h
      obtain ⟨_, _, h2⟩ := h
      simp_all
    · simp at h
  · refine ⟨true, ?_⟩
    split at h <;> simp_all
  · split at h
    · split at h
      · exact ⟨true, by simp_all⟩
      · exact ⟨false, by simp_all⟩
      · simp at h
    · simp at h
  · refine ⟨true, ?_⟩
    simp only [Option.map_eq_some'] at h
    obtain ⟨t, h1, h2⟩ := h
    simp_all

/-- In a list in which control only moves forward from `base` on and leaves
only through the last statement, every execution from a position past `base`
visits strictly increasing positions, ends within as many statements as are
left, and visits the last statement last. -/
theorem walk_forward (stmts : List FBlueprintCompiledStatement) (base : Nat)
    (hnext : ∀ pc s cond, base ≤ pc → stmts[pc]? = some s →
      ∃ pc2, nextPosition s pc cond = some pc2 ∧ pc < pc2 ∧ pc2 ≤ stmts.length ∧
        (pc2 = stmts.length → pc + 1 = stmts.length)) :
    ∀ (fuel pc : Nat) (outcomes : Nat → Bool), base ≤ pc → pc ≤ stmts.length →
      stmts.length - pc ≤ fuel →
      ∃ tr, walk stmts outcomes fuel pc = some tr ∧
        List.Pairwise (fun a b => a < b) tr ∧
        (∀ x ∈ tr, pc ≤ x ∧ x < stmts.length) ∧
        tr.length ≤ stmts.length - pc ∧
        (pc < stmts.length → tr.getLast? = some (stmts.length - 1))
  | fuel, pc, outcomes, hb, hle, hfuel => by
    by_cases hpc : pc = stmts.length
    · refine ⟨[], ?_, List.Pairwise.nil, by simp, by simp, fun h => absurd hpc (by omega)⟩
      rw [walk.eq_def]; simp [hpc]
    · have hlt : pc < stmts.length := by omega
      cases fuel with
      | zero => omega
      | succ fuel =>
        have hs : stmts[pc]? = some stmts[pc] := List.getElem?_eq_getElem hlt
        obtain ⟨pc2, h1, h2, h3, h4⟩ := hnext pc _ (outcomes 0) hb hs
        obtain ⟨tr, t1, t2, t3, t4, t5⟩ := walk_forward stmts base hnext fuel pc2
          (fun k => outcomes (k + 1)) (by omega) h3 (by omega)
        refine ⟨pc :: tr, ?_, ?_, ?_, ?_, ?_⟩
        · rw [walk.eq_def]
          simp [hpc, hs, h1, t1]
        · exact List.Pairwise.cons (fun x hx => by have := (t3 x hx).1; omega) t2
        · intro x hx
          rcases List.mem_cons.1 hx with rfl | hx
          · exact ⟨Nat.le_refl _, hlt⟩
          · have := t3 x hx
            exact ⟨by omega, this.2⟩
        · simp; omega
        · intro _
          by_cases hend : pc2 = stmts.length
          · have htr : tr = [] := by
              cases tr with
              | nil => rfl
              | cons x xs =>
                have := (t3 x (by simp)).2
                have := (t3 x (by simp)).1
                omega
            subst htr
            have := h4 hend
            simp
            omega
          · have h5 := t5 (by omega)
            cases tr with
            | nil => simp at h5
            | cons x xs => rw [List.getLast?_cons_cons]; exact h5

/-- Control flow of every statement of a successful lowering: control moves
forward, stays inside the list, leaves only after the last statement, and
every target that is set lies past the statement that holds it. -/
theorem lowered_forward (L : Layout) (P : List FBlueprintCompiledStatement)
    (opts : List UEdGraphPin) (hP : P.length = L.base) (pc : Nat)
    (s : FBlueprintCompiledStatement) (hpc : L.base ≤ pc)
    (hs : (P ++ loweredStatements L opts)[pc]? = some s) :
    (∀ cond, ∃ pc2, nextPosition s pc cond = some pc2 ∧ pc < pc2 ∧
        pc2 ≤ (P ++ loweredStatements L opts).length ∧
        (pc2 = (P ++ loweredStatements L opts).length →
          pc + 1 = (P ++ loweredStatements L opts).length)) ∧
      ∀ t, s.TargetLabel = some t → pc < t := by
  have hlt : pc < (P ++ loweredStatements L opts).length := (List.getElem?_eq_some.1 hs).1
  by_cases hne : opts = []
  · subst hne
    have hlen : (P ++ loweredStatements L []).length = L.base + 1 := by
      simp [loweredStatements, chain, hP]
    have hpc2 : pc = P.length := by omega
    have hs2 : s = exitNop := by
      rw [hpc2] at hs
      simpa [loweredStatements, chain] using hs.symm
    subst hs2
    rw [hlen]
    exact ⟨fun _ => ⟨pc + 1, by simp [nextPosition, exitNop], by omega, by omega, fun _ => by omega⟩,
      fun t ht => by simp [exitNop] at ht⟩
  · obtain ⟨h4, h5, h6⟩ := getElem?_lowered_default L P opts hP hne
    rw [h6] at hlt ⊢
    by_cases hidx : pc - L.base < 4 * opts.length
    · have hj : (pc - L.base) / 4 < opts.length := by omega
      have hk : (pc - L.base) % 4 < 4 := by omega
      have hget := getElem?_lowered L P opts hP ((pc - L.base) / 4) ((pc - L.base) % 4) _
        (List.getElem?_eq_getElem hj) hk
      have e : L.base + 4 * ((pc - L.base) / 4) + (pc - L.base) % 4 = pc := by omega
      rw [e, hs] at hget
      have hk4 : (pc - L.base) % 4 = 0 ∨ (pc - L.base) % 4 = 1 ∨ (pc - L.base) % 4 = 2 ∨
          (pc - L.base) % 4 = 3 := by omega
      rcases hk4 with h | h | h | h <;> rw [h] at hget <;>
        simp [optionBlock] at hget <;> subst hget
      · exact ⟨fun _ => ⟨pc + 1, by simp [nextPosition], by omega, by omega, fun _ => by omega⟩,
          fun t ht => by simp at ht⟩
      · refine ⟨fun cond => ?_, fun t ht => ?_⟩
        · cases cond
          · exact ⟨L.base + 4 * ((pc - L.base) / 4 + 1), by simp [nextPosition], by omega,
              by omega, fun _ => by omega⟩
          · exact ⟨pc + 1, by simp [nextPosition], by omega, by omega, fun _ => by omega⟩
        · simp at ht
          omega
      · exact ⟨fun _ => ⟨pc + 1, by simp [nextPosition], by omega, by omega, fun _ => by omega⟩,
          fun t ht => by simp at ht⟩
      · refine ⟨fun _ => ⟨L.base + 4 * opts.length + 1, by simp [nextPosition], by omega,
          by omega, fun _ => by omega⟩, fun t ht => ?_⟩
        simp at ht
        omega
    · have hcase : pc = L.base + 4 * opts.length ∨ pc = L.base + 4 * opts.length + 1 := by
        omega
      rcases hcase with h | h
      · rw [h, h4] at hs
        have hs2 : s = defaultAssign L := by simpa using hs.symm
        subst hs2
        exact ⟨fun _ => ⟨pc + 1, by simp [nextPosition, defaultAssign], by omega, by omega,
          fun _ => by omega⟩, fun t ht => by simp [defaultAssign] at ht⟩
      · rw [h, h5] at hs
        have hs2 : s = exitNop := by simpa using hs.symm
        subst hs2
        exact ⟨fun _ => ⟨pc + 1, by simp [nextPosition, exitNop], by omega, by omega,
          fun _ => by omega⟩, fun t ht => by simp [exitNop] at ht⟩

/-- C13. After a successful lowering of any number `n` of options, every jump
target among the emitted statements lies at a strictly greater position than
the statement that holds it. Consequently, whatever the outcomes of the
comparisons, execution from the first emitted statement visits strictly
increasing positions (so each statement at most once), all of them emitted
statements, ends within `4n + 2` statements, and the last statement it visits
is the final Nop. -/
theorem forward_jumps_terminate (H : FKCHandler_Select) (G : FEdGraphUtilities)
    (C : FKismetFunctionContext) (node : UDialogueK2Node_Select) (S R D : TermRef)
    (hS : C.NetMap (G.GetNetFromPin node.VariableNamePin) = some S)
    (hR : C.NetMap node.ReturnValuePin = some R)
    (hD : C.NetMap (G.GetNetFromPin node.DefaultValuePin) = some D)
    (hres : ∀ q ∈ node.OptionPins, (C.NetMap (G.GetNetFromPin q)).isSome = true) :
    (∀ k s t, (emitted H G C node)[k]? = some s → s.TargetLabel = some t →
      C.AllGeneratedStatements.length + k < t) ∧
    ∀ outcomes : Nat → Bool,
      ∃ tr, walk (H.Compile G C node).AllGeneratedStatements outcomes
          (4 * node.OptionPins.length + 2) C.AllGeneratedStatements.length = some tr ∧
        List.Pairwise (fun a b => a < b) tr ∧
        tr.Nodup ∧
        (∀ x ∈ tr, C.AllGeneratedStatements.length ≤ x ∧
          x < (H.Compile G C node).AllGeneratedStatements.length) ∧
        tr.length ≤ 4 * node.OptionPins.length + 2 ∧
        tr.getLast? = some ((H.Compile G C node).AllGeneratedStatements.length - 1) ∧
        (H.Compile G C node).AllGeneratedStatements[
            (H.Compile G C node).AllGeneratedStatements.length - 1]? =
          some { Type_ := .KCST_Nop, bIsJumpTarget := true } := by
  have hC := Compile_lowered H G C node S R D hS hR hD ((resolves_iff C G _).1 hres)
  have hstmts : (H.Compile G C node).AllGeneratedStatements =
      C.AllGeneratedStatements ++
        loweredStatements (layoutOf H G C node S R D) node.OptionPins := by rw [hC]
  have hfwd := lowered_forward (layoutOf H G C node S R D) C.AllGeneratedStatements
    node.OptionPins rfl
  have hlen : (C.AllGeneratedStatements ++
      loweredStatements (layoutOf H G C node S R D) node.OptionPins).length =
      C.AllGeneratedStatements.length + 4 * node.OptionPins.length +
        (if node.OptionPins = [] then 1 else 2) := by
    by_cases hne : node.OptionPins = []
    · simp [hne, loweredStatements, chain]
    · simp [hne, length_loweredStatements _ _ hne]
      omega
  have hlen2 : C.AllGeneratedStatements.length <
      (C.AllGeneratedStatements ++
        loweredStatements (layoutOf H G C node S R D) node.OptionPins).length ∧
      (C.AllGeneratedStatements ++
        loweredStatements (layoutOf H G C node S R D) node.OptionPins).length -
          C.AllGeneratedStatements.length ≤ 4 * node.OptionPins.length + 2 := by
    rw [hlen]; split <;> omega
  refine ⟨?_, ?_⟩
  · intro k s t hk ht
    rw [getElem?_emitted, hstmts] at hk
    exact (hfwd _ s (by simp [layoutOf]) hk).2 t ht
  · intro outcomes
    rw [hstmts]
    obtain ⟨tr, t1, t2, t3, t4, t5⟩ := walk_forward
      (C.AllGeneratedStatements ++
        loweredStatements (layoutOf H G C node S R D) node.OptionPins)
      C.AllGeneratedStatements.length
      (fun pc s cond hpc hs => (hfwd pc s (by simpa [layoutOf] using hpc) hs).1 cond)
      (4 * node.OptionPins.length + 2) C.AllGeneratedStatements.length outcomes
      (Nat.le_refl _) (by omega) hlen2.2
    refine ⟨tr, t1, t2, t2.imp (fun h => Nat.ne_of_lt h), t3, by omega, t5 hlen2.1, ?_⟩
    rw [List.getElem?_append_right (by omega)]
    by_cases hne : node.OptionPins = []
    · simp [hne, loweredStatements, chain, exitNop]
    · have h5 := (getElem?_loweredStatements_default (layoutOf H G C node S R D)
        node.OptionPins hne).2
      have e : (C.AllGeneratedStatements ++
          loweredStatements (layoutOf H G C node S R D) node.OptionPins).length - 1 -
          C.AllGeneratedStatements.length = 4 * node.OptionPins.length + 1 := by
        rw [hlen]; simp [hne]; omega
      rw [e, h5]; rfl

/-- Witness of C13 on the sample node with two options, with every
comparison failing. -/
theorem forward_jumps_terminate_witness :
    ∃ tr, walk (sampleHandler.Compile sampleGraph sampleContext
          (sampleNode [samplePin 10 "A", samplePin 11 "B"])).AllGeneratedStatements
          (fun _ => false) (4 * 2 + 2) sampleContext.AllGeneratedStatements.length = some tr ∧
        List.Pairwise (fun a b => a < b) tr ∧
        tr.Nodup ∧
        (∀ x ∈ tr, sampleContext.AllGeneratedStatements.length ≤ x ∧
          x < (sampleHandler.Compile sampleGraph sampleContext
            (sampleNode [samplePin 10 "A", samplePin 11 "B"])).AllGeneratedStatements.length) ∧
        tr.length ≤ 4 * 2 + 2 ∧
        tr.getLast? = some ((sampleHandler.Compile sampleGraph sampleContext
          (sampleNode [samplePin 10 "A", samplePin 11 "B"])).AllGeneratedStatements.length - 1) ∧
        (sampleHandler.Compile sampleGraph sampleContext
          (sampleNode [samplePin 10 "A", samplePin 11 "B"])).AllGeneratedStatements[
            (sampleHandler.Compile sampleGraph sampleContext
              (sampleNode [samplePin 10 "A", samplePin 11 "B"])).AllGeneratedStatements.length
                - 1]? =
          some { Type_ := .KCST_Nop, bIsJumpTarget := true } :=
  (forward_jumps_terminate sampleHandler sampleGraph sampleContext
    (sampleNode [samplePin 10 "A", samplePin 11 "B"]) (.loc 0) (.loc 2) (.loc 1)
    (by decide) (by decide) (by decide) (by decide)).2 (fun _ => false)

/-! ## Refreshing the pin names -/

theorem FName_beq_refl (a : FName) : (a == a) = true := by
  show (a.ComparisonIndex == a.ComparisonIndex && a.Number == a.Number) = true
  simp

/-- Two arrays of names are equal, by the equality of names, exactly when
they agree at every index. -/
theorem names_beq_iff :
    ∀ (A B : List FName), (A == B) = true ↔ ∀ i : Nat, ((A[i]? : Option FName) == B[i]?) = true
  | [], [] => by simp
  | [], b :: bs => by
    constructor
    · intro h; simp at h
    · intro h; have := h 0; simp at this
  | a :: as, [] => by
    constructor
    · intro h; simp at h
    · intro h; have := h 0; simp at this
  | a :: as, b :: bs => by
    rw [List.cons_beq_cons, Bool.and_eq_true, names_beq_iff as bs]
    constructor
    · rintro ⟨h1, h2⟩ i
      cases i with
      | zero => simpa using h1
      | succ i => simpa using h2 i
    · intro h
      refine ⟨by simpa using h 0, fun i => ?_⟩
      simpa using h (i + 1)

theorem names_beq_refl (A : List FName) : (A == A) = true := by
  rw [names_beq_iff]
  intro i
  cases A[i]? with
  | none => rfl
  | some a => exact FName_beq_refl a

theorem FName_beq_symm (a b : FName) (h : (a == b) = true) : (b == a) = true := by
  have h2 : (a.ComparisonIndex == b.ComparisonIndex && a.Number == b.Number) = true := h
  show (b.ComparisonIndex == a.ComparisonIndex && b.Number == a.Number) = true
  simp only [Bool.and_eq_true, beq_iff_eq] at h2 ⊢
  exact ⟨h2.1.symm, h2.2.symm⟩

theorem names_beq_symm (A B : List FName) (h : (A == B) = true) : (B == A) = true := by
  rw [names_beq_iff] at h ⊢
  intro i
  have hi := h i
  cases hA : A[i]? with
  | none =>
    cases hB : B[i]? with
    | none => rfl
    | some b => rw [hA, hB] at hi; simp at hi
  | some a =>
    cases hB : B[i]? with
    | none => rw [hA, hB] at hi; simp at hi
    | some b =>
      rw [hA, hB] at hi
      exact FName_beq_symm a b hi

/-- The comparison loop finds a difference exactly when the arrays differ at
some index it has yet to visit. -/
theorem findDifference_iff (New Pin : List FName) :
    ∀ (remaining i : Nat),
      (findDifference New Pin i remaining = true ↔
        ∃ k, i ≤ k ∧ k < i + remaining ∧ ((New[k]? : Option FName) != Pin[k]?) = true)
  | 0, i => by
    simp only [findDifference]
    constructor
    · intro h2; cases h2
    · rintro ⟨k, h1, h2, _⟩; omega
  | remaining + 1, i => by
    simp only [findDifference]
    by_cases hd : ((New[i]? : Option FName) != Pin[i]?) = true
    · rw [if_pos hd]
      simp only [true_iff]
      exact ⟨i, Nat.le_refl _, by omega, hd⟩
    · rw [if_neg hd]
      rw [findDifference_iff New Pin remaining (i + 1)]
      constructor
      · rintro ⟨k, h1, h2, h3⟩
        exact ⟨k, by omega, by omega, h3⟩
      · rintro ⟨k, h1, h2, h3⟩
        have hki : k ≠ i := by
          intro hki; subst hki; exact hd h3
        exact ⟨k, by omega, by omega, h3⟩

/-- The size test and the comparison loop together find a difference exactly
when the arrays are not equal by the equality of names. -/
theorem differs_iff (New Pin : List FName) :
    (New.length ≠ Pin.length ∨ findDifference New Pin 0 New.length = true) ↔
      (New != Pin) = true := by
  have hbne : (New != Pin) = true ↔ ¬ ∀ i : Nat, ((New[i]? : Option FName) == Pin[i]?) = true := by
    rw [← names_beq_iff]
    simp [bne]
  rw [hbne, findDifference_iff]
  constructor
  · rintro (hlen | ⟨k, _, _, hk⟩) hall
    · by_cases hlt : New.length < Pin.length
      · have hh := hall New.length
        rw [List.getElem?_eq_none (Nat.le_refl _), List.getElem?_eq_getElem hlt] at hh
        simp at hh
      · have hlt2 : Pin.length < New.length := by omega
        have hh := hall Pin.length
        rw [List.getElem?_eq_none (Nat.le_refl _), List.getElem?_eq_getElem hlt2] at hh
        simp at hh
    · have hh := hall k
      simp [bne, hh] at hk
  · intro hne
    by_cases hlen : New.length = Pin.length
    · right
      by_contra hall
      apply hne
      intro i
      by_cases hi : i < New.length
      · by_contra hi2
        exact hall ⟨i, Nat.zero_le _, by omega, by simp [bne, hi2]⟩
      · rw [List.getElem?_eq_none (by omega), List.getElem?_eq_none (by omega)]
        rfl
    · exact Or.inl hlen

/-- C14. Names are compared by the equality of `FName`, which ignores case.
When the participant of the node is `NAME_None`, `RefreshPinNames` returns
false and leaves the node as it is. When it is not and the variable type is
int or float, with `fetched` the names the dialogue manager gives for the
participant and that type, `RefreshPinNames` returns true exactly when
`fetched` differs from the stored `PinNames`, in length or at some position,
and in both cases `PinNames` equals `fetched` afterwards while the rest of the
node is unchanged: `PinNames` is `fetched` itself when true is returned and
the stored list when false is returned. -/
theorem refresh_pin_names (M : FDlgSystemEditorModule) (D : UDlgManager)
    (this : UDialogueK2Node_Select) :
    ((M.GetParticipantNameFromNode this == NAME_None) = true →
      this.RefreshPinNames M D = some (false, this)) ∧
    (∀ fetched : List FName,
      (M.GetParticipantNameFromNode this == NAME_None) = false →
      ((this.VariableType = .DlgVariableTypeInt ∧
          fetched = D.GetAllDialoguesIntNames (M.GetParticipantNameFromNode this)) ∨
        (this.VariableType = .DlgVariableTypeFloat ∧
          fetched = D.GetAllDialoguesFloatNames (M.GetParticipantNameFromNode this))) →
      ∃ changed after, this.RefreshPinNames M D = some (changed, after) ∧
        (changed = true ↔ (fetched != this.PinNames) = true) ∧
        (changed = true ↔
          (fetched.length ≠ this.PinNames.length ∨
            ∃ (i : Nat) (a b : FName),
              fetched[i]? = some a ∧ this.PinNames[i]? = some b ∧ (a != b) = true)) ∧
        (after.PinNames == fetched) = true ∧
        after = { this with PinNames := after.PinNames } ∧
        (changed = true → after.PinNames = fetched) ∧
        (changed = false → after.PinNames = this.PinNames)) := by
  refine ⟨fun h => by simp [UDialogueK2Node_Select.RefreshPinNames, h], ?_⟩
  intro fetched hname htype
  have hfetch : (match this.VariableType with
      | .DlgVariableTypeFloat =>
        some (D.GetAllDialoguesFloatNames (M.GetParticipantNameFromNode this))
      | .DlgVariableTypeInt =>
        some (D.GetAllDialoguesIntNames (M.GetParticipantNameFromNode this))
      | _ => none) = some fetched := by
    rcases htype with ⟨h1, h2⟩ | ⟨h1, h2⟩ <;> simp [h1, h2]
  have hdiff := differs_iff fetched this.PinNames
  -- a difference at a position, spelled out
  have hpos : (fetched.length ≠ this.PinNames.length ∨
      findDifference fetched this.PinNames 0 fetched.length = true) ↔
      (fetched.length ≠ this.PinNames.length ∨
        ∃ (i : Nat) (a b : FName),
              fetched[i]? = some a ∧ this.PinNames[i]? = some b ∧ (a != b) = true) := by
    rw [findDifference_iff]
    constructor
    · rintro (h | ⟨k, _, hk, hne⟩)
      · exact Or.inl h
      · by_cases hlen : fetched.length = this.PinNames.length
        · refine Or.inr ⟨k, fetched[k], this.PinNames[k], List.getElem?_eq_getElem (by omega),
            List.getElem?_eq_getElem (by omega), ?_⟩
          rw [List.getElem?_eq_getElem (by omega), List.getElem?_eq_getElem (by omega)] at hne
          exact hne
        · exact Or.inl hlen
    · rintro (h | ⟨i, a, b, ha, hb, hne⟩)
      · exact Or.inl h
      · have hi := (List.getElem?_eq_some.1 ha).1
        exact Or.inr ⟨i, Nat.zero_le _, by omega, by rw [ha, hb]; exact hne⟩
  simp only [UDialogueK2Node_Select.RefreshPinNames, hname, hfetch, Bool.false_eq_true,
    if_false]
  by_cases hlen : fetched.length ≠ this.PinNames.length
  · refine ⟨true, { this with PinNames := fetched }, by rw [if_pos hlen], ?_, ?_, names_beq_refl _,
      rfl, fun _ => rfl, fun h => by cases h⟩
    · simp only [true_iff]; exact hdiff.1 (Or.inl hlen)
    · simp only [true_iff]; exact hpos.1 (Or.inl hlen)
  · by_cases hfd : findDifference fetched this.PinNames 0 fetched.length = true
    · refine ⟨true, { this with PinNames := fetched }, by rw [if_neg hlen, if_pos hfd], ?_, ?_,
        names_beq_refl _, rfl, fun _ => rfl, fun h => by cases h⟩
      · simp only [true_iff]; exact hdiff.1 (Or.inr hfd)
      · simp only [true_iff]; exact hpos.1 (Or.inr hfd)
    · have hno : ¬ (fetched.length ≠ this.PinNames.length ∨
          findDifference fetched this.PinNames 0 fetched.length = true) := by
        rintro (h | h)
        · exact hlen h
        · exact hfd h
      have heq : (this.PinNames == fetched) = true := by
        have h1 : ¬ (fetched != this.PinNames) = true := fun h => hno (hdiff.2 h)
        have h2 : (fetched == this.PinNames) = true := by simpa [bne] using h1
        exact names_beq_symm _ _ h2
      refine ⟨false, this, by rw [if_neg hlen, if_neg hfd], ?_, ?_, heq, rfl,
        (fun h => by cases h), fun _ => rfl⟩
      · constructor
        · intro h; cases h
        · intro h; exact absurd (hdiff.2 h) hno
      · constructor
        · intro h; cases h
        · intro h; exact absurd (hpos.2 h) hno

/-- Witness of C14: a node that stores the names 1 and 2 in another case than
the manager gives them, so that no change is reported and the stored names
stay; and a node whose participant is `NAME_None` in another case. -/
theorem refresh_pin_names_witness :
    (∃ changed after,
        (sampleNamedNode [sampleName 1 5, sampleName 2 6]).RefreshPinNames sampleModule
          sampleManager = some (changed, after) ∧
        (changed = true ↔
          ([sampleName 1 1, sampleName 2 2] !=
            (sampleNamedNode [sampleName 1 5, sampleName 2 6]).PinNames) = true) ∧
        (changed = true ↔
          (([sampleName 1 1, sampleName 2 2] : List FName).length ≠
              (sampleNamedNode [sampleName 1 5, sampleName 2 6]).PinNames.length ∨
            ∃ (i : Nat) (a b : FName),
              ([sampleName 1 1, sampleName 2 2] : List FName)[i]? = some a ∧
              (sampleNamedNode [sampleName 1 5, sampleName 2 6]).PinNames[i]? = some b ∧
              (a != b) = true)) ∧
        (after.PinNames == [sampleName 1 1, sampleName 2 2]) = true ∧
        after = { sampleNamedNode [sampleName 1 5, sampleName 2 6] with
          PinNames := after.PinNames } ∧
        (changed = true → after.PinNames = [sampleName 1 1, sampleName 2 2]) ∧
        (changed = false →
          after.PinNames = (sampleNamedNode [sampleName 1 5, sampleName 2 6]).PinNames)) ∧
      (sampleNamedNode [sampleName 1 5]).RefreshPinNames sampleModuleNone sampleManager =
        some (false, sampleNamedNode [sampleName 1 5]) :=
  ⟨(refresh_pin_names sampleModule sampleManager
      (sampleNamedNode [sampleName 1 5, sampleName 2 6])).2
      [sampleName 1 1, sampleName 2 2] (by decide) (Or.inl ⟨rfl, rfl⟩),
    (refresh_pin_names sampleModuleNone sampleManager
      (sampleNamedNode [sampleName 1 5])).1 (by decide)⟩

end DlgSystem
